import Mathlib

/-!
Verification of the analytical core of the fantasy playoff simulator
(backend/app/simulator): the tiebreaker resolver, the playoff determiner,
the Monte Carlo engine, the magic-number calculator, and small pieces of
the result-assembly route.

Modelling conventions (shallow embedding):
  - Python dicts with a `(0,0,0)` default (the head-to-head tables) are
    modelled as total functions from the canonicalised key to the record
    triple; an absent key is the zero triple.
  - Floats are modelled as rationals.
  - `random.random()` draws are modelled by an injected source
    `r : ℕ → ℚ` giving the draw used for the coin-flip key of the team
    with a given id; a draw of the real generator lies in `[0, 1)`.
  - The recursive/iterative tiebreaker resolver is written with explicit
    fuel; fuel `tied.length` is always sufficient (each seating or split
    strictly shrinks the group), and the exported `resolve_tiebreaker`
    uses exactly that fuel.
-/

/-- A fantasy team as in `simulator/models.py` (`Team` dataclass): id,
name, division id, overall record and intra-division record. -/
structure Team where
  id : ℕ
  name : String
  division_id : ℕ
  wins : ℕ
  losses : ℕ
  ties : ℕ
  division_wins : ℕ
  division_losses : ℕ
  division_ties : ℕ
deriving DecidableEq

/-- `Team.win_pct`: `(W + 0.5·T)/(W+L+T)`, and `0` when no games. -/
def win_pct (t : Team) : ℚ :=
  if t.wins + t.losses + t.ties = 0 then 0
  else ((t.wins : ℚ) + (1/2) * t.ties) / ((t.wins : ℚ) + t.losses + t.ties)

/-- `Team.division_win_pct`: same formula on the division record. -/
def division_win_pct (t : Team) : ℚ :=
  if t.division_wins + t.division_losses + t.division_ties = 0 then 0
  else ((t.division_wins : ℚ) + (1/2) * t.division_ties) /
    ((t.division_wins : ℚ) + t.division_losses + t.division_ties)

/-- A head-to-head table: canonicalised key `(min, max)` to the triple
`(wins of lower id, wins of higher id, ties)`; dict-with-default modelled
as a total function. -/
def H2H : Type := ℕ × ℕ → ℕ × ℕ × ℕ

/-- `get_h2h_record` from `tiebreakers.py`: look up the canonicalised
key and swap the two win counts when `team1_id` is the higher id. -/
def get_h2h_record (h2h : H2H) (team1_id team2_id : ℕ) : ℕ × ℕ × ℕ :=
  if team1_id < team2_id then h2h (min team1_id team2_id, max team1_id team2_id)
  else
    ((h2h (min team1_id team2_id, max team1_id team2_id)).2.1,
     (h2h (min team1_id team2_id, max team1_id team2_id)).1,
     (h2h (min team1_id team2_id, max team1_id team2_id)).2.2)

/-- Component-wise sum of the historical and simulated tables, as built
at the top of `resolve_tiebreaker`. -/
def combineH2H (h2h sim_h2h : H2H) : H2H :=
  fun key =>
    ((h2h key).1 + (sim_h2h key).1,
     (h2h key).2.1 + (sim_h2h key).2.1,
     (h2h key).2.2 + (sim_h2h key).2.2)

/-- Total games played between two teams under the combined table (the
`sum(record)` of `_compute_h2h_pcts`). -/
def h2hTotal (comb : H2H) (a b : Team) : ℕ :=
  (get_h2h_record comb a.id b.id).1 + (get_h2h_record comb a.id b.id).2.1 +
    (get_h2h_record comb a.id b.id).2.2

/-- The list of pair totals over all unordered pairs of the group, in the
nested-loop order of `_compute_h2h_pcts`. -/
def pairTotals (comb : H2H) : List Team → List ℕ
  | [] => []
  | t :: rest => rest.map (fun u => h2hTotal comb t u) ++ pairTotals comb rest

/-- All elements equal to the first (empty list passes); the negation of
`pair_totals and len(set(pair_totals)) > 1`. -/
def allEqFirst : List ℕ → Bool
  | [] => true
  | x :: xs => xs.all (fun y => y == x)

/-- The equal-games gate of `_compute_h2h_pcts`: the H2H mini-standings
may be used iff every pair of the group has played the same total. -/
def h2h_pcts_valid (comb : H2H) (group : List Team) : Bool :=
  allEqFirst (pairTotals comb group)

/-- Wins, losses and ties of the team with id `tid` against the other
members of the group (the accumulation loop of `_compute_h2h_pcts`). -/
def h2h_counts (comb : H2H) (group : List Team) (tid : ℕ) : ℕ × ℕ × ℕ :=
  (((group.filter (fun o => tid != o.id)).map
      (fun o => (get_h2h_record comb tid o.id).1)).sum,
   ((group.filter (fun o => tid != o.id)).map
      (fun o => (get_h2h_record comb tid o.id).2.1)).sum,
   ((group.filter (fun o => tid != o.id)).map
      (fun o => (get_h2h_record comb tid o.id).2.2)).sum)

/-- The H2H percentage `(w + 0.5·t)/total` of `_compute_h2h_pcts`, `0.5`
when the team played no games inside the group.  The Python dict is keyed
by team id and its entries depend only on the id, so it is modelled as a
function of the id. -/
def h2h_pct (comb : H2H) (group : List Team) (tid : ℕ) : ℚ :=
  if 0 < (h2h_counts comb group tid).1 + (h2h_counts comb group tid).2.1 +
      (h2h_counts comb group tid).2.2 then
    (((h2h_counts comb group tid).1 : ℚ) +
        (1/2) * (h2h_counts comb group tid).2.2) /
      (((h2h_counts comb group tid).1 + (h2h_counts comb group tid).2.1 +
        (h2h_counts comb group tid).2.2 : ℕ) : ℚ)
  else 1/2

/-- Step 1b predicate of `resolve_tiebreaker`: the team lost (strictly
more losses than wins) to every other member of the group. -/
def lost_to_all (comb : H2H) (group : List Team) (t : Team) : Bool :=
  group.all (fun other =>
    t.id == other.id ||
      decide ((get_h2h_record comb t.id other.id).1 <
        (get_h2h_record comb t.id other.id).2.1))

/-- The division-record dict `{t.id: t.division_win_pct for t in remaining}`
of step 2: keyed by id with Python last-wins semantics, read back as a
function of the id. -/
def div_pct_lookup (group : List Team) (tid : ℕ) : ℚ :=
  match group.reverse.find? (fun t => t.id == tid) with
  | some t => division_win_pct t
  | none => 0

/-- Maximum of a list of rationals, 0 on the empty list (Python `max` is
only applied to nonempty value lists). -/
def listMax : List ℚ → ℚ
  | [] => 0
  | x :: xs => xs.foldl max x

/-- Minimum of a list of rationals, 0 on the empty list. -/
def listMin : List ℚ → ℚ
  | [] => 0
  | x :: xs => xs.foldl min x

/-- `_coin_flip_key`: `1` for the disfavored team, `-1` for the favored
team (disfavor checked first), otherwise `random.random() * 0.0001`. -/
def coin_flip_key (disfavor_id favor_id : Option ℕ) (r : ℕ → ℚ) (team : Team) : ℚ :=
  if some team.id = disfavor_id then 1
  else if some team.id = favor_id then -1
  else r team.id * (1/10000)

/-- The step-3 coin flip: Python's stable ascending `list.sort` on the
coin-flip key, modelled by the stable `List.mergeSort`. -/
def coinFlipOrder (disfavor_id favor_id : Option ℕ) (r : ℕ → ℚ)
    (l : List Team) : List Team :=
  l.mergeSort (fun a b =>
    decide (coin_flip_key disfavor_id favor_id r a ≤
      coin_flip_key disfavor_id favor_id r b))

/-- One decision of the seat-one-at-a-time loop of `resolve_tiebreaker`:
seat a single best team and restart, split the group into two subgroups
resolved independently, or fall to the coin flip. -/
inductive TBStep where
  | seat : Team → TBStep
  | split : List Team → List Team → TBStep
  | coin : TBStep
deriving DecidableEq

/-- Best H2H percentage inside the group (`max(h2h_pcts.values())`). -/
def h2hBestPct (comb : H2H) (tied : List Team) : ℚ :=
  listMax (tied.map (fun t => h2h_pct comb tied t.id))

/-- The members of the group attaining the best H2H percentage. -/
def h2hBestTeams (comb : H2H) (tied : List Team) : List Team :=
  tied.filter (fun t => decide (h2h_pct comb tied t.id = h2hBestPct comb tied))

/-- Best division percentage inside the group (`max(div_pcts.values())`). -/
def divBestPct (tied : List Team) : ℚ :=
  listMax (tied.map (fun t => div_pct_lookup tied t.id))

/-- The members of the group attaining the best division percentage. -/
def divBestTeams (tied : List Team) : List Team :=
  tied.filter (fun t => decide (div_pct_lookup tied t.id = divBestPct tied))

/-- The members of the group that lost to every other member. -/
def lostTeams (comb : H2H) (tied : List Team) : List Team :=
  tied.filter (fun t => lost_to_all comb tied t)

/-- Step 2 of the loop (division record): seat a unique best team, split
off a proper best subgroup, or go to the coin flip. -/
def tbStepDiv (tied : List Team) : TBStep :=
  if (divBestTeams tied).length = 1 then
    match (divBestTeams tied).head? with
    | some b => TBStep.seat b
    | none => TBStep.coin
  else if (divBestTeams tied).length < tied.length then
    TBStep.split (divBestTeams tied)
      (tied.filter (fun t => !((divBestTeams tied).any (fun b => b.id == t.id))))
  else TBStep.coin

/-- Step 1b of the loop (pairwise sweep-loser rule), falling through to
step 2. -/
def tbStepElim (comb : H2H) (tied : List Team) : TBStep :=
  if 0 < (lostTeams comb tied).length ∧ (lostTeams comb tied).length < tied.length then
    TBStep.split (tied.filter (fun t => decide (t ∉ lostTeams comb tied)))
      (lostTeams comb tied)
  else tbStepDiv tied

/-- The full decision cascade of one loop iteration of
`resolve_tiebreaker`: H2H mini-standings behind the equal-games gate,
then the sweep-loser rule, then division record, then coin flip. -/
def tbStep (comb : H2H) (tied : List Team) : TBStep :=
  if h2h_pcts_valid comb tied then
    if (h2hBestTeams comb tied).length = 1 then
      match (h2hBestTeams comb tied).head? with
      | some b => TBStep.seat b
      | none => tbStepElim comb tied
    else if (h2hBestTeams comb tied).length < tied.length then
      TBStep.split (h2hBestTeams comb tied)
        (tied.filter (fun t => !((h2hBestTeams comb tied).any (fun b => b.id == t.id))))
    else tbStepElim comb tied
  else tbStepElim comb tied

/-- The seat-one-at-a-time loop of `resolve_tiebreaker`, with explicit
fuel.  Seating prepends the seated team and restarts on the group with
its id removed; a split resolves the two subgroups and concatenates; the
coin flip sorts the whole remaining group. -/
def resolveAux (comb : H2H) (disfavor_id favor_id : Option ℕ) (r : ℕ → ℚ) :
    ℕ → List Team → List Team
  | 0, tied => tied
  | fuel + 1, tied =>
    if tied.length ≤ 1 then tied
    else
      match tbStep comb tied with
      | TBStep.seat b =>
          b :: resolveAux comb disfavor_id favor_id r fuel
            (tied.filter (fun t => !(t.id == b.id)))
      | TBStep.split top bot =>
          resolveAux comb disfavor_id favor_id r fuel top ++
            resolveAux comb disfavor_id favor_id r fuel bot
      | TBStep.coin => coinFlipOrder disfavor_id favor_id r tied

/-- `resolve_tiebreaker` of `tiebreakers.py`: combine the two tables and
run the loop.  Fuel `tied_teams.length` is always sufficient. -/
def resolve_tiebreaker (h2h sim_h2h : H2H) (disfavor_id favor_id : Option ℕ)
    (r : ℕ → ℚ) (tied_teams : List Team) : List Team :=
  resolveAux (combineH2H h2h sim_h2h) disfavor_id favor_id r
    tied_teams.length tied_teams

/-- An element-count filter that returns a singleton pins down, for a
predicate that depends only on the team id, the teams carrying that id:
they are exactly the singleton. -/
lemma filter_id_eq_single {f : ℕ → Bool} {p : Team → Bool}
    (hf : ∀ t, p t = f t.id) :
    ∀ {tied : List Team} {b : Team}, tied.filter p = [b] →
      tied.filter (fun t => t.id == b.id) = [b] := by
  intro tied
  induction tied with
  | nil => intro b h; simp at h
  | cons t rest ih =>
    intro b h
    by_cases hp : p t = true
    · rw [List.filter_cons_of_pos hp] at h
      simp only [List.cons.injEq] at h
      obtain ⟨rfl, hrest⟩ := h
      have hnone : rest.filter (fun x => x.id == t.id) = [] := by
        rw [List.filter_eq_nil_iff]
        intro u hu hid
        have : p u = true := by
          rw [hf u, show u.id = t.id from by simpa using hid, ← hf t]
          exact hp
        have : u ∈ rest.filter p := List.mem_filter.mpr ⟨hu, this⟩
        rw [hrest] at this
        simp at this
      rw [List.filter_cons_of_pos (by simp), hnone]
    · rw [List.filter_cons_of_neg hp] at h
      have hb : p b = true := by
        have : b ∈ rest.filter p := by rw [h]; simp
        exact (List.mem_filter.mp this).2
      have hneq : (t.id == b.id) = false := by
        by_contra hc
        have : t.id = b.id := by
          simpa using (Bool.not_eq_false _).mp hc
        exact hp (by rw [hf t, this, ← hf b]; exact hb)
      rw [List.filter_cons_of_neg (by simp [hneq]), ih h]

/-- Seating the unique best team of an id-determined filter and keeping
the rest is a permutation of the group. -/
lemma perm_seat {f : ℕ → Bool} {p : Team → Bool} (hf : ∀ t, p t = f t.id)
    {tied : List Team} {b : Team} (hp : tied.filter p = [b]) :
    tied.Perm (b :: tied.filter (fun t => !(t.id == b.id))) := by
  have h1 := filter_id_eq_single hf hp
  have h2 := (List.filter_append_perm (fun t => t.id == b.id) tied).symm
  rw [h1] at h2
  simpa using h2

/-- Filtering out the members of `tied.filter q` from `tied` is the same
as filtering by the negation of `q`. -/
lemma filter_notin_filter (q : Team → Bool) (tied : List Team) :
    tied.filter (fun t => decide (t ∉ tied.filter q)) =
      tied.filter (fun t => !(q t)) := by
  apply List.filter_congr
  intro t ht
  by_cases hq : q t = true
  · have hmem : t ∈ tied.filter q := List.mem_filter.mpr ⟨ht, hq⟩
    simp [hmem, hq]
  · have hmem : t ∉ tied.filter q := fun hm => hq (List.mem_filter.mp hm).2
    simp [hmem, hq]

/-- Splitting a group into the members of an id-determined filter and the
members whose id is not among them is a permutation of the group. -/
lemma perm_split_any {f : ℕ → Bool} {p : Team → Bool} (hf : ∀ t, p t = f t.id)
    (tied : List Team) :
    tied.Perm (tied.filter p ++
      tied.filter (fun t => !((tied.filter p).any (fun b => b.id == t.id)))) := by
  have hrw : tied.filter (fun t => !((tied.filter p).any (fun b => b.id == t.id))) =
      tied.filter (fun t => !(p t)) := by
    apply List.filter_congr
    intro t ht
    congr 1
    by_cases hp : p t = true
    · have hm : t ∈ tied.filter p := List.mem_filter.mpr ⟨ht, hp⟩
      rw [hp]
      exact List.any_eq_true.mpr ⟨t, hm, by simp⟩
    · rw [Bool.eq_false_iff.mpr hp]
      rw [List.any_eq_false]
      intro b hb
      have hpb : p b = true := (List.mem_filter.mp hb).2
      simp only [beq_iff_eq]
      intro hid
      exact hp (by rw [hf t, ← hid, ← hf b]; exact hpb)
  rw [hrw]
  exact (List.filter_append_perm p tied).symm

/-- A division-record seat decision seats a member and keeps a
permutation. -/
lemma tbStepDiv_seat_perm {tied : List Team} {b : Team}
    (h : tbStepDiv tied = TBStep.seat b) :
    tied.Perm (b :: tied.filter (fun t => !(t.id == b.id))) := by
  unfold tbStepDiv at h
  by_cases h1 : (divBestTeams tied).length = 1
  · rw [if_pos h1] at h
    obtain ⟨b', hb'⟩ := List.length_eq_one.mp h1
    rw [hb'] at h
    simp only [List.head?_cons] at h
    injection h with hbb
    subst hbb
    exact perm_seat (f := fun i => decide (div_pct_lookup tied i = divBestPct tied))
      (fun t => rfl) (by rw [← divBestTeams]; exact hb')
  · rw [if_neg h1] at h
    split_ifs at h

/-- A division-record split decision splits the group into a
permutation. -/
lemma tbStepDiv_split_perm {tied top bot : List Team}
    (h : tbStepDiv tied = TBStep.split top bot) :
    tied.Perm (top ++ bot) := by
  unfold tbStepDiv at h
  by_cases h1 : (divBestTeams tied).length = 1
  · rw [if_pos h1] at h
    obtain ⟨b', hb'⟩ := List.length_eq_one.mp h1
    rw [hb'] at h
    simp [List.head?_cons] at h
  · rw [if_neg h1] at h
    split_ifs at h
    injection h with htop hbot
    subst htop
    subst hbot
    exact perm_split_any (f := fun i => decide (div_pct_lookup tied i = divBestPct tied))
      (fun t => rfl) tied

/-- A sweep-loser seat decision seats a member and keeps a permutation. -/
lemma tbStepElim_seat_perm {comb : H2H} {tied : List Team} {b : Team}
    (h : tbStepElim comb tied = TBStep.seat b) :
    tied.Perm (b :: tied.filter (fun t => !(t.id == b.id))) := by
  unfold tbStepElim at h
  split_ifs at h
  exact tbStepDiv_seat_perm h

/-- A sweep-loser split decision splits the group into a permutation. -/
lemma tbStepElim_split_perm {comb : H2H} {tied top bot : List Team}
    (h : tbStepElim comb tied = TBStep.split top bot) :
    tied.Perm (top ++ bot) := by
  unfold tbStepElim at h
  split_ifs at h
  · injection h with htop hbot
    subst htop
    subst hbot
    simp only [lostTeams]
    rw [filter_notin_filter]
    refine List.Perm.trans ?_ List.perm_append_comm
    exact (List.filter_append_perm (fun t => lost_to_all comb tied t) tied).symm
  · exact tbStepDiv_split_perm h

/-- Any seat decision of the cascade seats a member and keeps a
permutation. -/
lemma tbStep_seat_perm {comb : H2H} {tied : List Team} {b : Team}
    (h : tbStep comb tied = TBStep.seat b) :
    tied.Perm (b :: tied.filter (fun t => !(t.id == b.id))) := by
  unfold tbStep at h
  by_cases hv : h2h_pcts_valid comb tied = true
  · rw [if_pos hv] at h
    by_cases h1 : (h2hBestTeams comb tied).length = 1
    · rw [if_pos h1] at h
      obtain ⟨b', hb'⟩ := List.length_eq_one.mp h1
      rw [hb'] at h
      simp only [List.head?_cons] at h
      injection h with hbb
      subst hbb
      exact perm_seat
        (f := fun i => decide (h2h_pct comb tied i = h2hBestPct comb tied))
        (fun t => rfl) (by rw [← h2hBestTeams]; exact hb')
    · rw [if_neg h1] at h
      split_ifs at h
      exact tbStepElim_seat_perm h
  · rw [if_neg hv] at h
    exact tbStepElim_seat_perm h

/-- Any split decision of the cascade splits the group into a
permutation. -/
lemma tbStep_split_perm {comb : H2H} {tied top bot : List Team}
    (h : tbStep comb tied = TBStep.split top bot) :
    tied.Perm (top ++ bot) := by
  unfold tbStep at h
  by_cases hv : h2h_pcts_valid comb tied = true
  · rw [if_pos hv] at h
    by_cases h1 : (h2hBestTeams comb tied).length = 1
    · rw [if_pos h1] at h
      obtain ⟨b', hb'⟩ := List.length_eq_one.mp h1
      rw [hb'] at h
      simp [List.head?_cons] at h
    · rw [if_neg h1] at h
      split_ifs at h
      · injection h with htop hbot
        subst htop
        subst hbot
        exact perm_split_any
          (f := fun i => decide (h2h_pct comb tied i = h2hBestPct comb tied))
          (fun t => rfl) tied
      · exact tbStepElim_split_perm h
  · rw [if_neg hv] at h
    exact tbStepElim_split_perm h

/-- The fuelled resolver loop returns a permutation of its input, for
every fuel value. -/
lemma resolveAux_perm (comb : H2H) (disfavor_id favor_id : Option ℕ)
    (r : ℕ → ℚ) :
    ∀ (fuel : ℕ) (tied : List Team),
      (resolveAux comb disfavor_id favor_id r fuel tied).Perm tied := by
  intro fuel
  induction fuel with
  | zero => intro tied; exact List.Perm.refl _
  | succ fuel ih =>
    intro tied
    rw [resolveAux]
    by_cases h1 : tied.length ≤ 1
    · rw [if_pos h1]
    · rw [if_neg h1]
      rcases hstep : tbStep comb tied with b | ⟨top, bot⟩ | _
      · exact ((ih _).cons b).trans (tbStep_seat_perm hstep).symm
      · exact ((ih top).append (ih bot)).trans (tbStep_split_perm hstep).symm
      · simp only [coinFlipOrder]
        exact List.mergeSort_perm tied _

/-- `resolve_tiebreaker` returns a permutation of its input. -/
lemma resolve_tiebreaker_perm (h2h sim_h2h : H2H)
    (disfavor_id favor_id : Option ℕ) (r : ℕ → ℚ) (tied_teams : List Team) :
    (resolve_tiebreaker h2h sim_h2h disfavor_id favor_id r tied_teams).Perm
      tied_teams := by
  unfold resolve_tiebreaker
  exact resolveAux_perm _ _ _ _ _ _

/-- C5: for every input list of teams, every pair of H2H maps, and every
choice of bias ids (and any randomness source), `resolve_tiebreaker`
returns a permutation of its input: the same teams, same length, same
multiset of team ids, no team duplicated or dropped. -/
theorem c5_resolve_tiebreaker_perm (h2h sim_h2h : H2H)
    (disfavor_id favor_id : Option ℕ) (r : ℕ → ℚ) (tied_teams : List Team) :
    (resolve_tiebreaker h2h sim_h2h disfavor_id favor_id r tied_teams).Perm
      tied_teams :=
  resolve_tiebreaker_perm h2h sim_h2h disfavor_id favor_id r tied_teams

/-- If a team is not the disfavored one, its coin-flip key is strictly
below `1`, for any draw of the random source in `[0, 1)`. -/
lemma coin_flip_key_lt_one {disfavor_id favor_id : Option ℕ} {r : ℕ → ℚ}
    (hr : ∀ i, 0 ≤ r i ∧ r i < 1) (t : Team)
    (hdis : some t.id ≠ disfavor_id) :
    coin_flip_key disfavor_id favor_id r t < 1 := by
  unfold coin_flip_key
  rw [if_neg hdis]
  split_ifs
  · norm_num
  · have h1 := (hr t.id).1
    have h2 := (hr t.id).2
    nlinarith

/-- If a team is not the favored one, its coin-flip key is strictly above
`-1`, for any draw of the random source in `[0, 1)`. -/
lemma neg_one_lt_coin_flip_key {disfavor_id favor_id : Option ℕ} {r : ℕ → ℚ}
    (hr : ∀ i, 0 ≤ r i ∧ r i < 1) (t : Team)
    (hfav : some t.id ≠ favor_id) :
    -1 < coin_flip_key disfavor_id favor_id r t := by
  by_cases h1 : some t.id = disfavor_id
  · rw [coin_flip_key, if_pos h1]
    norm_num
  · rw [coin_flip_key, if_neg h1, if_neg hfav]
    nlinarith [(hr t.id).1]

/-- The coin-flip order is sorted (pairwise non-decreasing) in the
coin-flip key. -/
lemma coinFlipOrder_sorted (disfavor_id favor_id : Option ℕ) (r : ℕ → ℚ)
    (l : List Team) :
    List.Pairwise
      (fun a b => coin_flip_key disfavor_id favor_id r a ≤
        coin_flip_key disfavor_id favor_id r b)
      (coinFlipOrder disfavor_id favor_id r l) := by
  have h := @List.sorted_mergeSort Team
    (fun a b =>
      decide (coin_flip_key disfavor_id favor_id r a ≤
        coin_flip_key disfavor_id favor_id r b))
    (by intro a b c hab hbc
        simp only [decide_eq_true_eq] at hab hbc ⊢
        exact le_trans hab hbc)
    (by intro a b
        simp only [Bool.or_eq_true, decide_eq_true_eq]
        exact le_total _ _)
    l
  unfold coinFlipOrder
  exact List.Pairwise.imp (by intro a b hab; simpa using hab) h

/-- C2 (counterexample to the claim as stated): in a call of
`resolve_tiebreaker` that reaches the coin-flip step with
`disfavor_id = favor_id = some 1`, the team with id 1 — which is passed
as `favor_id` — is ranked below its coin-flip-equivalent competitor,
because the disfavor check has precedence in `_coin_flip_key` and gives
it key `+1`, not `-1`. -/
theorem c2_counterexample :
    resolve_tiebreaker (fun _ => (0, 0, 0)) (fun _ => (0, 0, 0))
      (some 1) (some 1) (fun _ => 0)
      [⟨1, "A", 0, 0, 0, 0, 0, 0, 0⟩, ⟨2, "B", 0, 0, 0, 0, 0, 0, 0⟩] =
    [⟨2, "B", 0, 0, 0, 0, 0, 0, 0⟩, ⟨1, "A", 0, 0, 0, 0, 0, 0, 0⟩] := by
  norm_num [resolve_tiebreaker, resolveAux, tbStep, tbStepElim, tbStepDiv,
    h2h_pcts_valid, pairTotals, allEqFirst, h2hTotal, get_h2h_record,
    combineH2H, h2hBestTeams, h2hBestPct, h2h_pct, h2h_counts, listMax,
    lostTeams, lost_to_all, divBestTeams, divBestPct, div_pct_lookup,
    division_win_pct, coinFlipOrder, coin_flip_key, List.mergeSort,
    List.merge]

/-- C2 (amended): in the coin-flip step, with the random draws in
`[0, 1)`, the team passed as `disfavor_id` is never ranked above a
coin-flip-equivalent competitor (it sorts last) and the team passed as
`favor_id` is never ranked below one (it sorts first) — the latter
provided the two bias ids differ, because the disfavor check has
precedence in `_coin_flip_key`.  The sort key is `+1` for `disfavor_id`,
`-1` for `favor_id` (when distinct from `disfavor_id`), and otherwise a
random value of absolute value strictly less than 1. -/
theorem c2_coin_flip_bias
    (disfavor_id favor_id : Option ℕ) (r : ℕ → ℚ) (l : List Team)
    (hr : ∀ i, 0 ≤ r i ∧ r i < 1) :
    (∀ d ∈ l, some d.id = disfavor_id →
      (∀ u ∈ l, u.id = d.id → u = d) →
      (coinFlipOrder disfavor_id favor_id r l).getLast? = some d) ∧
    (∀ f ∈ l, some f.id = favor_id → disfavor_id ≠ favor_id →
      (∀ u ∈ l, u.id = f.id → u = f) →
      (coinFlipOrder disfavor_id favor_id r l).head? = some f) ∧
    (∀ t : Team,
      (some t.id = disfavor_id → coin_flip_key disfavor_id favor_id r t = 1) ∧
      (some t.id = favor_id → disfavor_id ≠ favor_id →
        coin_flip_key disfavor_id favor_id r t = -1) ∧
      (some t.id ≠ disfavor_id → some t.id ≠ favor_id →
        |coin_flip_key disfavor_id favor_id r t| < 1)) := by
  refine ⟨?_, ?_, ?_⟩
  · intro d hd hdis huniq
    have hperm : (coinFlipOrder disfavor_id favor_id r l).Perm l :=
      List.mergeSort_perm l _
    have hdm : d ∈ coinFlipOrder disfavor_id favor_id r l := hperm.mem_iff.mpr hd
    have hne : coinFlipOrder disfavor_id favor_id r l ≠ [] :=
      List.ne_nil_of_mem hdm
    have hsorted := coinFlipOrder_sorted disfavor_id favor_id r l
    have hdec := List.dropLast_append_getLast hne
    rw [List.getLast?_eq_getLast _ hne]
    by_cases hdz : d = (coinFlipOrder disfavor_id favor_id r l).getLast hne
    · rw [← hdz]
    · exfalso
      have hdin : d ∈ (coinFlipOrder disfavor_id favor_id r l).dropLast := by
        have hmem2 : d ∈ (coinFlipOrder disfavor_id favor_id r l).dropLast ++
            [(coinFlipOrder disfavor_id favor_id r l).getLast hne] := by
          rw [hdec]; exact hdm
        rcases List.mem_append.mp hmem2 with h | h
        · exact h
        · exact absurd (List.mem_singleton.mp h) hdz
      have hpw := hsorted
      rw [← hdec] at hpw
      have hle := (List.pairwise_append.mp hpw).2.2 d hdin _
        (List.mem_singleton_self _)
      have hzl : (coinFlipOrder disfavor_id favor_id r l).getLast hne ∈ l :=
        hperm.mem_iff.mp (List.getLast_mem hne)
      have hzid : some ((coinFlipOrder disfavor_id favor_id r l).getLast hne).id ≠
          disfavor_id := by
        intro hc
        apply hdz
        refine (huniq _ hzl ?_).symm
        exact Option.some.inj (hc.trans hdis.symm)
      have hkz : coin_flip_key disfavor_id favor_id r
          ((coinFlipOrder disfavor_id favor_id r l).getLast hne) < 1 :=
        coin_flip_key_lt_one hr _ hzid
      have hkd : coin_flip_key disfavor_id favor_id r d = 1 := by
        rw [coin_flip_key, if_pos hdis]
      rw [hkd] at hle
      linarith
  · intro f hf hfav hneq huniq
    have hperm : (coinFlipOrder disfavor_id favor_id r l).Perm l :=
      List.mergeSort_perm l _
    have hfm : f ∈ coinFlipOrder disfavor_id favor_id r l := hperm.mem_iff.mpr hf
    have hne : coinFlipOrder disfavor_id favor_id r l ≠ [] :=
      List.ne_nil_of_mem hfm
    obtain ⟨h0, t0, hcons⟩ := List.exists_cons_of_ne_nil hne
    have hsorted := coinFlipOrder_sorted disfavor_id favor_id r l
    rw [hcons]
    simp only [List.head?_cons, Option.some.injEq]
    by_cases hh : h0 = f
    · exact hh
    · exfalso
      have hft : f ∈ t0 := by
        have := hfm
        rw [hcons] at this
        rcases List.mem_cons.mp this with h | h
        · exact absurd h.symm hh
        · exact h
      have hpw := hsorted
      rw [hcons] at hpw
      have hle := (List.pairwise_cons.mp hpw).1 f hft
      have hh0l : h0 ∈ l := by
        refine hperm.mem_iff.mp ?_
        rw [hcons]
        exact List.mem_cons_self h0 t0
      have hfid : some h0.id ≠ favor_id := by
        intro hc
        apply hh
        refine huniq h0 hh0l ?_
        exact Option.some.inj (hc.trans hfav.symm)
      have hkey0 : -1 < coin_flip_key disfavor_id favor_id r h0 :=
        neg_one_lt_coin_flip_key hr h0 hfid
      have hkf : coin_flip_key disfavor_id favor_id r f = -1 := by
        rw [coin_flip_key, if_neg ?_, if_pos hfav]
        intro hc
        exact hneq (by rw [← hc, hfav])
      rw [hkf] at hle
      linarith
  · intro t
    refine ⟨?_, ?_, ?_⟩
    · intro hdis
      rw [coin_flip_key, if_pos hdis]
    · intro hfav hneq
      rw [coin_flip_key, if_neg ?_, if_pos hfav]
      intro hc
      exact hneq (by rw [← hc, hfav])
    · intro hdis hfav
      rw [coin_flip_key, if_neg hdis, if_neg hfav]
      rw [abs_of_nonneg (by nlinarith [(hr t.id).1])]
      nlinarith [(hr t.id).2]

/-- Witness for the amended C2: with `disfavor_id = some 1`,
`favor_id = some 2` and zero draws, team 1 sorts last and team 2 sorts
first among two otherwise equivalent teams. -/
theorem c2_coin_flip_bias_witness :
    (coinFlipOrder (some 1) (some 2) (fun _ => 0)
      [⟨1, "A", 0, 0, 0, 0, 0, 0, 0⟩, ⟨2, "B", 0, 0, 0, 0, 0, 0, 0⟩]).getLast? =
      some ⟨1, "A", 0, 0, 0, 0, 0, 0, 0⟩ ∧
    (coinFlipOrder (some 1) (some 2) (fun _ => 0)
      [⟨1, "A", 0, 0, 0, 0, 0, 0, 0⟩, ⟨2, "B", 0, 0, 0, 0, 0, 0, 0⟩]).head? =
      some ⟨2, "B", 0, 0, 0, 0, 0, 0, 0⟩ := by
  have hr : ∀ i : ℕ, 0 ≤ (0 : ℚ) ∧ (0 : ℚ) < 1 := fun i => ⟨le_refl 0, by norm_num⟩
  have h := c2_coin_flip_bias (some 1) (some 2) (fun _ => 0)
    [⟨1, "A", 0, 0, 0, 0, 0, 0, 0⟩, ⟨2, "B", 0, 0, 0, 0, 0, 0, 0⟩] hr
  constructor
  · exact h.1 ⟨1, "A", 0, 0, 0, 0, 0, 0, 0⟩ (by simp) rfl (by decide)
  · exact h.2.1 ⟨2, "B", 0, 0, 0, 0, 0, 0, 0⟩ (by simp) rfl (by decide) (by decide)

/-- The pair total is symmetric in its two teams. -/
lemma h2hTotal_symm (comb : H2H) (a b : Team) :
    h2hTotal comb a b = h2hTotal comb b a := by
  simp only [h2hTotal, get_h2h_record, min_comm b.id a.id, max_comm b.id a.id]
  by_cases h : a.id < b.id
  · rw [if_pos h, if_neg (by omega)]
    ring
  · by_cases h2 : b.id < a.id
    · rw [if_neg h, if_pos h2]
      ring
    · rw [if_neg h, if_neg h2]

/-- Pair totals of permuted groups are permutations of each other. -/
lemma pairTotals_perm (comb : H2H) {l l' : List Team} (hp : l.Perm l') :
    (pairTotals comb l).Perm (pairTotals comb l') := by
  induction hp with
  | nil => exact List.Perm.refl _
  | cons x hl ih =>
    simp only [pairTotals]
    exact (hl.map _).append ih
  | swap x y l =>
    simp only [pairTotals, List.map_cons, List.append_eq, List.cons_append]
    rw [h2hTotal_symm comb y x]
    refine List.Perm.cons _ ?_
    rw [← List.append_assoc, ← List.append_assoc]
    exact List.perm_append_comm.append_right _
  | trans h1 h2 ih1 ih2 => exact ih1.trans ih2

/-- `allEqFirst` holds exactly when all members of the list are equal. -/
lemma allEqFirst_iff (l : List ℕ) :
    allEqFirst l = true ↔ ∀ x ∈ l, ∀ y ∈ l, x = y := by
  cases l with
  | nil => simp [allEqFirst]
  | cons x xs =>
    simp only [allEqFirst, List.all_eq_true, beq_iff_eq]
    constructor
    · intro h a ha b hb
      have hval : ∀ c ∈ x :: xs, c = x := by
        intro c hc
        rcases List.mem_cons.mp hc with rfl | hc
        · rfl
        · exact h c hc
      rw [hval a ha, hval b hb]
    · intro h y hy
      exact h y (List.mem_cons_of_mem x hy) x (List.mem_cons_self x xs)

/-- The equal-games gate is invariant under permutation of the group. -/
lemma h2h_pcts_valid_perm (comb : H2H) {l l' : List Team} (hp : l.Perm l') :
    h2h_pcts_valid comb l = h2h_pcts_valid comb l' := by
  have hq := pairTotals_perm comb hp
  simp only [h2h_pcts_valid]
  by_cases hb : allEqFirst (pairTotals comb l) = true
  · rw [hb]
    exact ((allEqFirst_iff _).mpr (fun x hx y hy =>
      (allEqFirst_iff _).mp hb x (hq.mem_iff.mpr hx) y (hq.mem_iff.mpr hy))).symm
  · have hb' : ¬ allEqFirst (pairTotals comb l') = true := fun hc =>
      hb ((allEqFirst_iff _).mpr (fun x hx y hy =>
        (allEqFirst_iff _).mp hc x (hq.mem_iff.mp hx) y (hq.mem_iff.mp hy)))
    rw [Bool.not_eq_true] at hb hb'
    rw [hb, hb']

/-- Per-id H2H counts are invariant under permutation of the group. -/
lemma h2h_counts_perm (comb : H2H) {l l' : List Team} (hp : l.Perm l')
    (tid : ℕ) : h2h_counts comb l tid = h2h_counts comb l' tid := by
  have h := hp.filter (fun o => tid != o.id)
  simp only [h2h_counts, Prod.mk.injEq]
  exact ⟨(h.map _).sum_eq, (h.map _).sum_eq, (h.map _).sum_eq⟩

/-- Per-id H2H percentages are invariant under permutation of the group. -/
lemma h2h_pct_perm (comb : H2H) {l l' : List Team} (hp : l.Perm l')
    (tid : ℕ) : h2h_pct comb l tid = h2h_pct comb l' tid := by
  simp only [h2h_pct, h2h_counts_perm comb hp tid]

/-- A left fold of `max` either returns its seed or a list member. -/
lemma foldl_max_mem :
    ∀ (xs : List ℚ) (a : ℚ), xs.foldl max a = a ∨ xs.foldl max a ∈ xs := by
  intro xs
  induction xs with
  | nil => intro a; left; rfl
  | cons x xs ih =>
    intro a
    rcases ih (max a x) with h | h
    · rcases max_choice a x with hm | hm
      · left; rw [List.foldl_cons, h, hm]
      · right; rw [List.foldl_cons, h, hm]; exact List.mem_cons_self x xs
    · right; exact List.mem_cons_of_mem x h

/-- The seed is below a left fold of `max`. -/
lemma le_foldl_max : ∀ (xs : List ℚ) (a : ℚ), a ≤ xs.foldl max a := by
  intro xs
  induction xs with
  | nil => intro a; exact le_refl a
  | cons x xs ih => intro a; exact le_trans (le_max_left a x) (ih (max a x))

/-- Every member is below a left fold of `max`. -/
lemma mem_le_foldl_max :
    ∀ (xs : List ℚ) (a x : ℚ), x ∈ xs → x ≤ xs.foldl max a := by
  intro xs
  induction xs with
  | nil => intro a x hx; simp at hx
  | cons y ys ih =>
    intro a x hx
    rcases List.mem_cons.mp hx with rfl | hx
    · exact le_trans (le_max_right a x) (le_foldl_max ys (max a x))
    · exact ih (max a y) x hx

/-- `listMax` of a nonempty list is a member. -/
lemma listMax_mem {l : List ℚ} (h : l ≠ []) : listMax l ∈ l := by
  cases l with
  | nil => exact absurd rfl h
  | cons x xs =>
    rcases foldl_max_mem xs x with h1 | h1
    · rw [listMax, h1]; exact List.mem_cons_self x xs
    · rw [listMax]; exact List.mem_cons_of_mem x h1

/-- `listMax` bounds every member. -/
lemma le_listMax {l : List ℚ} {x : ℚ} (hx : x ∈ l) : x ≤ listMax l := by
  cases l with
  | nil => simp at hx
  | cons y ys =>
    rcases List.mem_cons.mp hx with rfl | h
    · exact le_foldl_max ys x
    · exact mem_le_foldl_max ys y x h

/-- `listMax` is invariant under permutation. -/
lemma listMax_perm {l l' : List ℚ} (hp : l.Perm l') : listMax l = listMax l' := by
  rcases eq_or_ne l [] with rfl | hne
  · rw [hp.symm.eq_nil]
  · have hne' : l' ≠ [] := fun hc => hne (by rw [hc] at hp; exact hp.eq_nil)
    exact le_antisymm (le_listMax (hp.mem_iff.mp (listMax_mem hne)))
      (le_listMax (hp.mem_iff.mpr (listMax_mem hne')))

/-- The best H2H percentage is invariant under permutation of the group. -/
lemma h2hBestPct_perm (comb : H2H) {l l' : List Team} (hp : l.Perm l') :
    h2hBestPct comb l = h2hBestPct comb l' := by
  unfold h2hBestPct
  have h1 : l'.map (fun t => h2h_pct comb l' t.id) =
      l'.map (fun t => h2h_pct comb l t.id) :=
    List.map_congr_left (fun a _ => (h2h_pct_perm comb hp a.id).symm)
  rw [h1]
  exact listMax_perm (hp.map _)

/-- The best-H2H filter over a permuted group uses the same predicate as
over the original group. -/
lemma h2hBestTeams_eq_of_perm (comb : H2H) {l l' : List Team} (hp : l.Perm l') :
    h2hBestTeams comb l' =
      l'.filter (fun t => decide (h2h_pct comb l t.id = h2hBestPct comb l)) := by
  unfold h2hBestTeams
  apply List.filter_congr
  intro t _
  rw [h2h_pct_perm comb hp t.id, h2hBestPct_perm comb hp]

/-- `List.all` only depends on the membership of the list. -/
lemma all_perm {p : Team → Bool} {l l' : List Team} (hp : l.Perm l') :
    l.all p = l'.all p := by
  by_cases h : l.all p = true
  · rw [h]
    exact ((List.all_eq_true).mpr (fun x hx =>
      (List.all_eq_true).mp h x (hp.mem_iff.mpr hx))).symm
  · have h' : ¬ l'.all p = true := fun hc =>
      h ((List.all_eq_true).mpr (fun x hx =>
        (List.all_eq_true).mp hc x (hp.mem_iff.mp hx)))
    rw [Bool.not_eq_true] at h h'
    rw [h, h']

/-- The sweep-loser predicate is invariant under permutation of the
group. -/
lemma lost_to_all_perm (comb : H2H) {l l' : List Team} (hp : l.Perm l')
    (t : Team) : lost_to_all comb l t = lost_to_all comb l' t := by
  unfold lost_to_all
  exact all_perm hp

/-- The sweep-loser filter over a permuted group uses the same predicate
as over the original group. -/
lemma lostTeams_eq_of_perm (comb : H2H) {l l' : List Team} (hp : l.Perm l') :
    lostTeams comb l' = l'.filter (fun t => lost_to_all comb l t) := by
  unfold lostTeams
  exact List.filter_congr (fun t _ => (lost_to_all_perm comb hp t).symm)

/-- With unique team ids, the division-record dict lookup returns the
team's own division percentage. -/
lemma div_pct_lookup_self {l : List Team} (hnd : (l.map Team.id).Nodup)
    {t : Team} (ht : t ∈ l) : div_pct_lookup l t.id = division_win_pct t := by
  rcases hfind : l.reverse.find? (fun u => u.id == t.id) with _ | u
  · exfalso
    rw [List.find?_eq_none] at hfind
    exact hfind t (List.mem_reverse.mpr ht) (by simp)
  · have hu1 : u.id = t.id := by simpa using List.find?_some hfind
    have hu2 : u ∈ l := List.mem_reverse.mp (List.mem_of_find?_eq_some hfind)
    unfold div_pct_lookup
    rw [hfind]
    rw [List.inj_on_of_nodup_map hnd hu2 ht hu1]

/-- The best division percentage is invariant under permutation of a
group with unique ids. -/
lemma divBestPct_perm {l l' : List Team} (hp : l.Perm l')
    (hnd : (l.map Team.id).Nodup) : divBestPct l = divBestPct l' := by
  have hnd' : (l'.map Team.id).Nodup := (hp.map Team.id).nodup hnd
  unfold divBestPct
  have h1 : l.map (fun t => div_pct_lookup l t.id) = l.map division_win_pct :=
    List.map_congr_left (fun a ha => div_pct_lookup_self hnd ha)
  have h2 : l'.map (fun t => div_pct_lookup l' t.id) = l'.map division_win_pct :=
    List.map_congr_left (fun a ha => div_pct_lookup_self hnd' ha)
  rw [h1, h2]
  exact listMax_perm (hp.map _)

/-- The best-division filter over a permuted group with unique ids uses
the same predicate as over the original group. -/
lemma divBestTeams_eq_of_perm {l l' : List Team} (hp : l.Perm l')
    (hnd : (l.map Team.id).Nodup) :
    divBestTeams l' =
      l'.filter (fun t => decide (div_pct_lookup l t.id = divBestPct l)) := by
  have hnd' : (l'.map Team.id).Nodup := (hp.map Team.id).nodup hnd
  unfold divBestTeams
  apply List.filter_congr
  intro t ht
  rw [div_pct_lookup_self hnd' ht, ← div_pct_lookup_self hnd (hp.mem_iff.mpr ht),
    divBestPct_perm hp hnd]

/-- The H2H step of the cascade falls through: the equal-games gate bars
H2H, or every remaining team attains the best H2H percentage. -/
def h2hFall (comb : H2H) (l : List Team) : Prop :=
  h2h_pcts_valid comb l = false ∨
    (h2h_pcts_valid comb l = true ∧ (h2hBestTeams comb l).length ≠ 1 ∧
      ¬ (h2hBestTeams comb l).length < l.length)

/-- The sweep-loser step of the cascade falls through: no team, or every
team, lost to all others. -/
def elimFall (comb : H2H) (l : List Team) : Prop :=
  ¬ (0 < (lostTeams comb l).length ∧ (lostTeams comb l).length < l.length)

/-- Construction: a unique best-H2H team is seated. -/
lemma tbStep_eq_seat_h2h {comb : H2H} {l : List Team} {b : Team}
    (hv : h2h_pcts_valid comb l = true) (hb : h2hBestTeams comb l = [b]) :
    tbStep comb l = TBStep.seat b := by
  unfold tbStep
  rw [if_pos hv, hb]
  simp

/-- Construction: a proper best-H2H subgroup splits the group. -/
lemma tbStep_eq_split_h2h {comb : H2H} {l : List Team}
    (hv : h2h_pcts_valid comb l = true)
    (hne1 : (h2hBestTeams comb l).length ≠ 1)
    (hlt : (h2hBestTeams comb l).length < l.length) :
    tbStep comb l = TBStep.split (h2hBestTeams comb l)
      (l.filter (fun t => !((h2hBestTeams comb l).any (fun u => u.id == t.id)))) := by
  unfold tbStep
  rw [if_pos hv, if_neg hne1, if_pos hlt]

/-- Construction: when the H2H step falls through, the cascade continues
with the sweep-loser step. -/
lemma tbStep_eq_elim {comb : H2H} {l : List Team} (hf : h2hFall comb l) :
    tbStep comb l = tbStepElim comb l := by
  unfold tbStep
  rcases hf with hv | ⟨hv, hne1, hnlt⟩
  · rw [hv]
    simp
  · rw [if_pos hv, if_neg hne1, if_neg hnlt]

/-- Construction: a nonempty proper lost-to-all set splits the group. -/
lemma tbStepElim_eq_split {comb : H2H} {l : List Team}
    (h0 : 0 < (lostTeams comb l).length)
    (h1 : (lostTeams comb l).length < l.length) :
    tbStepElim comb l = TBStep.split
      (l.filter (fun t => decide (t ∉ lostTeams comb l))) (lostTeams comb l) := by
  unfold tbStepElim
  rw [if_pos ⟨h0, h1⟩]

/-- Construction: when the sweep-loser step falls through, the cascade
continues with the division step. -/
lemma tbStepElim_eq_div {comb : H2H} {l : List Team} (hf : elimFall comb l) :
    tbStepElim comb l = tbStepDiv l := by
  unfold tbStepElim
  rw [if_neg hf]

/-- Construction: a unique best-division team is seated. -/
lemma tbStepDiv_eq_seat {l : List Team} {b : Team}
    (hb : divBestTeams l = [b]) : tbStepDiv l = TBStep.seat b := by
  unfold tbStepDiv
  rw [hb]
  simp

/-- Construction: a proper best-division subgroup splits the group. -/
lemma tbStepDiv_eq_split {l : List Team}
    (hne1 : (divBestTeams l).length ≠ 1)
    (hlt : (divBestTeams l).length < l.length) :
    tbStepDiv l = TBStep.split (divBestTeams l)
      (l.filter (fun t => !((divBestTeams l).any (fun u => u.id == t.id)))) := by
  unfold tbStepDiv
  rw [if_neg hne1, if_pos hlt]

/-- Construction: when the division step also ties everyone, the cascade
reaches the coin flip. -/
lemma tbStepDiv_eq_coin {l : List Team}
    (hne1 : (divBestTeams l).length ≠ 1)
    (hnlt : ¬ (divBestTeams l).length < l.length) :
    tbStepDiv l = TBStep.coin := by
  unfold tbStepDiv
  rw [if_neg hne1, if_neg hnlt]

/-- Destruction: a seat decision of the division step pins down the
best-division filter. -/
lemma tbStepDiv_seat_inv {l : List Team} {b : Team}
    (h : tbStepDiv l = TBStep.seat b) : divBestTeams l = [b] := by
  unfold tbStepDiv at h
  by_cases h1 : (divBestTeams l).length = 1
  · obtain ⟨b', hb'⟩ := List.length_eq_one.mp h1
    rw [if_pos h1, hb'] at h
    simp only [List.head?_cons] at h
    injection h with hbb
    rw [hb', hbb]
  · rw [if_neg h1] at h
    split_ifs at h

/-- Destruction: a seat decision of the sweep-loser step falls through to
the division step. -/
lemma tbStepElim_seat_inv {comb : H2H} {l : List Team} {b : Team}
    (h : tbStepElim comb l = TBStep.seat b) :
    elimFall comb l ∧ divBestTeams l = [b] := by
  unfold tbStepElim at h
  split_ifs at h with hc
  exact ⟨hc, tbStepDiv_seat_inv h⟩

/-- Destruction: any seat decision of the cascade comes either from a
unique best-H2H team or, after both early steps fall through, from a
unique best-division team. -/
lemma tbStep_seat_inv {comb : H2H} {l : List Team} {b : Team}
    (h : tbStep comb l = TBStep.seat b) :
    (h2h_pcts_valid comb l = true ∧ h2hBestTeams comb l = [b]) ∨
    (h2hFall comb l ∧ elimFall comb l ∧ divBestTeams l = [b]) := by
  unfold tbStep at h
  by_cases hv : h2h_pcts_valid comb l = true
  · rw [if_pos hv] at h
    by_cases h1 : (h2hBestTeams comb l).length = 1
    · obtain ⟨b', hb'⟩ := List.length_eq_one.mp h1
      rw [if_pos h1, hb'] at h
      simp only [List.head?_cons] at h
      injection h with hbb
      exact Or.inl ⟨hv, by rw [hb', hbb]⟩
    · rw [if_neg h1] at h
      split_ifs at h with h2
      have := tbStepElim_seat_inv h
      exact Or.inr ⟨Or.inr ⟨hv, h1, h2⟩, this.1, this.2⟩
  · rw [if_neg hv] at h
    have := tbStepElim_seat_inv h
    exact Or.inr ⟨Or.inl (Bool.not_eq_true _ ▸ hv), this.1, this.2⟩

/-- Destruction: any split decision of the cascade is the H2H split, the
sweep-loser split, or the division split, with the gates that guard it. -/
lemma tbStep_split_inv {comb : H2H} {l top bot : List Team}
    (h : tbStep comb l = TBStep.split top bot) :
    (h2h_pcts_valid comb l = true ∧ (h2hBestTeams comb l).length ≠ 1 ∧
      (h2hBestTeams comb l).length < l.length ∧ top = h2hBestTeams comb l ∧
      bot = l.filter (fun t => !((h2hBestTeams comb l).any (fun u => u.id == t.id)))) ∨
    (h2hFall comb l ∧ 0 < (lostTeams comb l).length ∧
      (lostTeams comb l).length < l.length ∧
      top = l.filter (fun t => decide (t ∉ lostTeams comb l)) ∧
      bot = lostTeams comb l) ∨
    (h2hFall comb l ∧ elimFall comb l ∧ (divBestTeams l).length ≠ 1 ∧
      (divBestTeams l).length < l.length ∧ top = divBestTeams l ∧
      bot = l.filter (fun t => !((divBestTeams l).any (fun u => u.id == t.id)))) := by
  have hdiv : ∀ (hf : h2hFall comb l) (he : elimFall comb l),
      tbStepDiv l = TBStep.split top bot →
      (h2hFall comb l ∧ elimFall comb l ∧ (divBestTeams l).length ≠ 1 ∧
        (divBestTeams l).length < l.length ∧ top = divBestTeams l ∧
        bot = l.filter (fun t => !((divBestTeams l).any (fun u => u.id == t.id)))) := by
    intro hf he hd
    unfold tbStepDiv at hd
    by_cases h1 : (divBestTeams l).length = 1
    · obtain ⟨b', hb'⟩ := List.length_eq_one.mp h1
      rw [if_pos h1, hb'] at hd
      simp [List.head?_cons] at hd
    · rw [if_neg h1] at hd
      split_ifs at hd with h2
      injection hd with htop hbot
      exact ⟨hf, he, h1, h2, htop.symm, hbot.symm⟩
  have helim : ∀ (hf : h2hFall comb l), tbStepElim comb l = TBStep.split top bot →
      (h2hFall comb l ∧ 0 < (lostTeams comb l).length ∧
        (lostTeams comb l).length < l.length ∧
        top = l.filter (fun t => decide (t ∉ lostTeams comb l)) ∧
        bot = lostTeams comb l) ∨
      (h2hFall comb l ∧ elimFall comb l ∧ (divBestTeams l).length ≠ 1 ∧
        (divBestTeams l).length < l.length ∧ top = divBestTeams l ∧
        bot = l.filter (fun t => !((divBestTeams l).any (fun u => u.id == t.id)))) := by
    intro hf hel
    unfold tbStepElim at hel
    split_ifs at hel with hc
    · injection hel with htop hbot
      exact Or.inl ⟨hf, hc.1, hc.2, htop.symm, hbot.symm⟩
    · exact Or.inr (hdiv hf hc hel)
  unfold tbStep at h
  by_cases hv : h2h_pcts_valid comb l = true
  · rw [if_pos hv] at h
    by_cases h1 : (h2hBestTeams comb l).length = 1
    · obtain ⟨b', hb'⟩ := List.length_eq_one.mp h1
      rw [if_pos h1, hb'] at h
      simp [List.head?_cons] at h
    · rw [if_neg h1] at h
      split_ifs at h with h2
      · injection h with htop hbot
        exact Or.inl ⟨hv, h1, h2, htop.symm, hbot.symm⟩
      · rcases helim (Or.inr ⟨hv, h1, h2⟩) h with hcase | hcase
        · exact Or.inr (Or.inl hcase)
        · exact Or.inr (Or.inr hcase)
  · rcases helim (Or.inl (Bool.not_eq_true _ ▸ hv)) (by rw [if_neg hv] at h; exact h)
      with hcase | hcase
    · exact Or.inr (Or.inl hcase)
    · exact Or.inr (Or.inr hcase)

/-- Destruction: a coin decision means every step of the cascade fell
through. -/
lemma tbStep_coin_inv {comb : H2H} {l : List Team}
    (h : tbStep comb l = TBStep.coin) :
    h2hFall comb l ∧ elimFall comb l ∧ (divBestTeams l).length ≠ 1 ∧
      ¬ (divBestTeams l).length < l.length := by
  have hdiv : ∀ (hf : h2hFall comb l) (he : elimFall comb l),
      tbStepDiv l = TBStep.coin →
      h2hFall comb l ∧ elimFall comb l ∧ (divBestTeams l).length ≠ 1 ∧
        ¬ (divBestTeams l).length < l.length := by
    intro hf he hd
    unfold tbStepDiv at hd
    by_cases h1 : (divBestTeams l).length = 1
    · obtain ⟨b', hb'⟩ := List.length_eq_one.mp h1
      rw [if_pos h1, hb'] at hd
      simp [List.head?_cons] at hd
    · rw [if_neg h1] at hd
      split_ifs at hd with h2
      exact ⟨hf, he, h1, h2⟩
  have helim : ∀ (hf : h2hFall comb l), tbStepElim comb l = TBStep.coin →
      h2hFall comb l ∧ elimFall comb l ∧ (divBestTeams l).length ≠ 1 ∧
        ¬ (divBestTeams l).length < l.length := by
    intro hf hel
    unfold tbStepElim at hel
    split_ifs at hel with hc
    exact hdiv hf hc hel
  unfold tbStep at h
  by_cases hv : h2h_pcts_valid comb l = true
  · rw [if_pos hv] at h
    by_cases h1 : (h2hBestTeams comb l).length = 1
    · obtain ⟨b', hb'⟩ := List.length_eq_one.mp h1
      rw [if_pos h1, hb'] at h
      simp [List.head?_cons] at h
    · rw [if_neg h1] at h
      split_ifs at h with h2
      exact helim (Or.inr ⟨hv, h1, h2⟩) h
  · rw [if_neg hv] at h
    exact helim (Or.inl (Bool.not_eq_true _ ▸ hv)) h

/-- `List.any` only depends on the membership of the list. -/
lemma any_perm {p : Team → Bool} {l l' : List Team} (hp : l.Perm l') :
    l.any p = l'.any p := by
  by_cases h : l.any p = true
  · rw [h]
    obtain ⟨x, hx, hpx⟩ := List.any_eq_true.mp h
    exact (List.any_eq_true.mpr ⟨x, hp.mem_iff.mp hx, hpx⟩).symm
  · have h' : ¬ l'.any p = true := fun hc => by
      obtain ⟨x, hx, hpx⟩ := List.any_eq_true.mp hc
      exact h (List.any_eq_true.mpr ⟨x, hp.mem_iff.mpr hx, hpx⟩)
    rw [Bool.not_eq_true] at h h'
    rw [h, h']

/-- The best-H2H group of a permuted list is a permutation of the best-H2H
group of the original. -/
lemma h2hBestTeams_perm (comb : H2H) {l l' : List Team} (hp : l.Perm l') :
    (h2hBestTeams comb l').Perm (h2hBestTeams comb l) := by
  rw [h2hBestTeams_eq_of_perm comb hp]
  exact hp.symm.filter _

/-- The lost-to-all group of a permuted list is a permutation of the
lost-to-all group of the original. -/
lemma lostTeams_perm (comb : H2H) {l l' : List Team} (hp : l.Perm l') :
    (lostTeams comb l').Perm (lostTeams comb l) := by
  rw [lostTeams_eq_of_perm comb hp]
  exact hp.symm.filter _

/-- The best-division group of a permuted list with unique ids is a
permutation of the best-division group of the original. -/
lemma divBestTeams_perm {l l' : List Team} (hp : l.Perm l')
    (hnd : (l.map Team.id).Nodup) :
    (divBestTeams l').Perm (divBestTeams l) := by
  rw [divBestTeams_eq_of_perm hp hnd]
  exact hp.symm.filter _

/-- H2H fall-through transports along permutations. -/
lemma h2hFall_perm {comb : H2H} {l l' : List Team} (hp : l.Perm l')
    (hf : h2hFall comb l) : h2hFall comb l' := by
  rcases hf with hv | ⟨hv, hne1, hnlt⟩
  · exact Or.inl (by rw [← h2h_pcts_valid_perm comb hp]; exact hv)
  · refine Or.inr ⟨by rw [← h2h_pcts_valid_perm comb hp]; exact hv, ?_, ?_⟩
    · rw [(h2hBestTeams_perm comb hp).length_eq]
      exact hne1
    · rw [(h2hBestTeams_perm comb hp).length_eq, ← hp.length_eq]
      exact hnlt

/-- Sweep-loser fall-through transports along permutations. -/
lemma elimFall_perm {comb : H2H} {l l' : List Team} (hp : l.Perm l')
    (hf : elimFall comb l) : elimFall comb l' := by
  unfold elimFall at hf ⊢
  rw [(lostTeams_perm comb hp).length_eq, ← hp.length_eq]
  exact hf

/-- Filtering preserves uniqueness of the team ids. -/
lemma nodup_ids_filter {l : List Team} (hnd : (l.map Team.id).Nodup)
    (p : Team → Bool) : ((l.filter p).map Team.id).Nodup :=
  List.Nodup.sublist ((List.filter_sublist l).map Team.id) hnd

/-- The best-H2H group of a nonempty group is nonempty: the maximum
percentage is attained. -/
lemma h2hBestTeams_ne_nil {comb : H2H} {tied : List Team} (h : tied ≠ []) :
    h2hBestTeams comb tied ≠ [] := by
  have hmapne : tied.map (fun t => h2h_pct comb tied t.id) ≠ [] := by
    simpa using h
  obtain ⟨t, ht, hpct⟩ := List.mem_map.mp (listMax_mem hmapne)
  intro hc
  have hmem : t ∈ h2hBestTeams comb tied := by
    refine List.mem_filter.mpr ⟨ht, ?_⟩
    simp only [h2hBestPct, decide_eq_true_eq]
    exact hpct
  rw [hc] at hmem
  simp at hmem

/-- The best-division group of a nonempty group is nonempty. -/
lemma divBestTeams_ne_nil {tied : List Team} (h : tied ≠ []) :
    divBestTeams tied ≠ [] := by
  have hmapne : tied.map (fun t => div_pct_lookup tied t.id) ≠ [] := by
    simpa using h
  obtain ⟨t, ht, hpct⟩ := List.mem_map.mp (listMax_mem hmapne)
  intro hc
  have hmem : t ∈ divBestTeams tied := by
    refine List.mem_filter.mpr ⟨ht, ?_⟩
    simp only [divBestPct, decide_eq_true_eq]
    exact hpct
  rw [hc] at hmem
  simp at hmem

/-- Unfolding: the loop returns short groups unchanged. -/
lemma resolveAux_succ_short {comb : H2H} {dis fav : Option ℕ} {r : ℕ → ℚ}
    {fuel : ℕ} {tied : List Team} (h1 : tied.length ≤ 1) :
    resolveAux comb dis fav r (fuel + 1) tied = tied := by
  rw [resolveAux, if_pos h1]

/-- Unfolding: a seat decision prepends the seated team. -/
lemma resolveAux_succ_seat {comb : H2H} {dis fav : Option ℕ} {r : ℕ → ℚ}
    {fuel : ℕ} {tied : List Team} {b : Team} (h1 : ¬ tied.length ≤ 1)
    (hstep : tbStep comb tied = TBStep.seat b) :
    resolveAux comb dis fav r (fuel + 1) tied =
      b :: resolveAux comb dis fav r fuel
        (tied.filter (fun t => !(t.id == b.id))) := by
  rw [resolveAux, if_neg h1, hstep]

/-- Unfolding: a split decision resolves the two halves independently. -/
lemma resolveAux_succ_split {comb : H2H} {dis fav : Option ℕ} {r : ℕ → ℚ}
    {fuel : ℕ} {tied top bot : List Team} (h1 : ¬ tied.length ≤ 1)
    (hstep : tbStep comb tied = TBStep.split top bot) :
    resolveAux comb dis fav r (fuel + 1) tied =
      resolveAux comb dis fav r fuel top ++
        resolveAux comb dis fav r fuel bot := by
  rw [resolveAux, if_neg h1, hstep]

/-- Unfolding: a coin decision sorts the whole group. -/
lemma resolveAux_succ_coin {comb : H2H} {dis fav : Option ℕ} {r : ℕ → ℚ}
    {fuel : ℕ} {tied : List Team} (h1 : ¬ tied.length ≤ 1)
    (hstep : tbStep comb tied = TBStep.coin) :
    resolveAux comb dis fav r (fuel + 1) tied =
      coinFlipOrder dis fav r tied := by
  rw [resolveAux, if_neg h1, hstep]

/-- Prepending the unique filter-member to teams of other ids keeps the
filter a singleton. -/
lemma cons_filter_singleton {tied A : List Team} {b : Team} {p : Team → Bool}
    (hbest : tied.filter p = [b])
    (hmemA : ∀ u ∈ A, u ∈ tied ∧ u.id ≠ b.id) :
    (b :: A).filter p = [b] := by
  have hpb : p b = true := by
    have hb : b ∈ tied.filter p := by rw [hbest]; exact List.mem_singleton_self b
    exact (List.mem_filter.mp hb).2
  rw [List.filter_cons_of_pos hpb]
  have hnil : A.filter p = [] := by
    rw [List.filter_eq_nil_iff]
    intro u hu hpu
    obtain ⟨hut, hune⟩ := hmemA u hu
    have hmem : u ∈ tied.filter p := List.mem_filter.mpr ⟨hut, hpu⟩
    rw [hbest] at hmem
    exact hune (congrArg Team.id (List.mem_singleton.mp hmem))
  rw [hnil]

/-- Filtering an append keeps exactly the left half when the predicate
holds there and fails on the right half. -/
lemma append_filter_left {A B : List Team} {p : Team → Bool}
    (hA : ∀ u ∈ A, p u = true) (hB : ∀ u ∈ B, p u = false) :
    (A ++ B).filter p = A := by
  rw [List.filter_append, List.filter_eq_self.mpr hA,
    List.filter_eq_nil_iff.mpr (fun u hu => by rw [hB u hu]; simp),
    List.append_nil]

/-- Filtering an append keeps exactly the right half when the predicate
fails on the left half and holds on the right. -/
lemma append_filter_right {A B : List Team} {p : Team → Bool}
    (hA : ∀ u ∈ A, p u = false) (hB : ∀ u ∈ B, p u = true) :
    (A ++ B).filter p = B := by
  rw [List.filter_append, List.filter_eq_self.mpr hB,
    List.filter_eq_nil_iff.mpr (fun u hu => by rw [hA u hu]; simp),
    List.nil_append]

/-- Sorting by the coin-flip key is idempotent: the stable sort leaves a
sorted list unchanged. -/
lemma coinFlipOrder_idem (disfavor_id favor_id : Option ℕ) (r : ℕ → ℚ)
    (l : List Team) :
    coinFlipOrder disfavor_id favor_id r
      (coinFlipOrder disfavor_id favor_id r l) =
      coinFlipOrder disfavor_id favor_id r l := by
  unfold coinFlipOrder
  refine List.mergeSort_of_sorted (List.sorted_mergeSort ?_ ?_ l)
  · intro a b c hab hbc
    simp only [decide_eq_true_eq] at hab hbc ⊢
    exact le_trans hab hbc
  · intro a b
    simp only [Bool.or_eq_true, decide_eq_true_eq]
    exact le_total _ _

/-- The fuelled resolver loop is idempotent on groups with unique team
ids, given sufficient fuel and a fixed randomness source. -/
lemma resolveAux_idem (comb : H2H) (dis fav : Option ℕ) (r : ℕ → ℚ) :
    ∀ (fuel : ℕ) (tied : List Team), tied.length ≤ fuel →
      (tied.map Team.id).Nodup →
      resolveAux comb dis fav r fuel (resolveAux comb dis fav r fuel tied) =
        resolveAux comb dis fav r fuel tied := by
  intro fuel
  induction fuel with
  | zero => intro tied _ _; rfl
  | succ fuel ih =>
    intro tied hlen hnd
    by_cases h1 : tied.length ≤ 1
    · have heq := @resolveAux_succ_short comb dis fav r fuel tied h1
      rw [heq]
      exact heq
    · rcases hstep : tbStep comb tied with b | ⟨top, bot⟩ | _
      · -- seat case
        have hseatperm := tbStep_seat_perm hstep
        have hAperm := resolveAux_perm comb dis fav r fuel
          (tied.filter (fun t => !(t.id == b.id)))
        have houtperm : (b :: resolveAux comb dis fav r fuel
            (tied.filter (fun t => !(t.id == b.id)))).Perm tied :=
          (hAperm.cons b).trans hseatperm.symm
        have hmemA : ∀ u ∈ resolveAux comb dis fav r fuel
            (tied.filter (fun t => !(t.id == b.id))),
            u ∈ tied ∧ u.id ≠ b.id := by
          intro u hu
          have hur := hAperm.mem_iff.mp hu
          have hmf := List.mem_filter.mp hur
          exact ⟨hmf.1, by simpa using hmf.2⟩
        have hout := @resolveAux_succ_seat comb dis fav r fuel tied b h1 hstep
        rw [hout]
        have hlen2 : ¬ (b :: resolveAux comb dis fav r fuel
            (tied.filter (fun t => !(t.id == b.id)))).length ≤ 1 := by
          rw [houtperm.length_eq]
          exact h1
        have hrestlen : (tied.filter (fun t => !(t.id == b.id))).length ≤ fuel := by
          have h := hseatperm.length_eq
          simp only [List.length_cons] at h
          omega
        have hrestnodup := nodup_ids_filter hnd (fun t => !(t.id == b.id))
        have hstep2 : tbStep comb (b :: resolveAux comb dis fav r fuel
            (tied.filter (fun t => !(t.id == b.id)))) = TBStep.seat b := by
          rcases tbStep_seat_inv hstep with ⟨hv, hbest⟩ | ⟨hf, he, hbest⟩
          · have hv2 : h2h_pcts_valid comb (b :: resolveAux comb dis fav r fuel
                (tied.filter (fun t => !(t.id == b.id)))) = true := by
              rw [h2h_pcts_valid_perm comb houtperm]
              exact hv
            have hbest2 : h2hBestTeams comb (b :: resolveAux comb dis fav r fuel
                (tied.filter (fun t => !(t.id == b.id)))) = [b] := by
              rw [h2hBestTeams_eq_of_perm comb houtperm.symm]
              exact cons_filter_singleton hbest hmemA
            exact tbStep_eq_seat_h2h hv2 hbest2
          · have hf2 := h2hFall_perm houtperm.symm hf
            have he2 := elimFall_perm houtperm.symm he
            have hbest2 : divBestTeams (b :: resolveAux comb dis fav r fuel
                (tied.filter (fun t => !(t.id == b.id)))) = [b] := by
              rw [divBestTeams_eq_of_perm houtperm.symm hnd]
              exact cons_filter_singleton hbest hmemA
            rw [tbStep_eq_elim hf2, tbStepElim_eq_div he2]
            exact tbStepDiv_eq_seat hbest2
        rw [resolveAux_succ_seat hlen2 hstep2]
        have hbfilter : (b :: resolveAux comb dis fav r fuel
            (tied.filter (fun t => !(t.id == b.id)))).filter
              (fun t => !(t.id == b.id)) =
            resolveAux comb dis fav r fuel
              (tied.filter (fun t => !(t.id == b.id))) := by
          rw [List.filter_cons_of_neg (by simp)]
          exact List.filter_eq_self.mpr (fun u hu => by
            simp [(hmemA u hu).2])
        rw [hbfilter, ih _ hrestlen hrestnodup]
      · -- split case
        have hsplitperm := tbStep_split_perm hstep
        have htopperm := resolveAux_perm comb dis fav r fuel top
        have hbotperm := resolveAux_perm comb dis fav r fuel bot
        have houtperm : (resolveAux comb dis fav r fuel top ++
            resolveAux comb dis fav r fuel bot).Perm tied :=
          (htopperm.append hbotperm).trans hsplitperm.symm
        have hout := @resolveAux_succ_split comb dis fav r fuel tied top bot
          h1 hstep
        rw [hout]
        have hlen2 : ¬ (resolveAux comb dis fav r fuel top ++
            resolveAux comb dis fav r fuel bot).length ≤ 1 := by
          rw [houtperm.length_eq]
          exact h1
        have hlensum : top.length + bot.length = tied.length := by
          have h := hsplitperm.length_eq
          simp only [List.length_append] at h
          omega
        have htnil : tied ≠ [] := by
          intro hc
          rw [hc] at h1
          simp at h1
        rcases tbStep_split_inv hstep with
          ⟨hv, hne1, hlt, htopeq, hboteq⟩ |
          ⟨hf, h0, hltl, htopeq, hboteq⟩ |
          ⟨hf, he, hne1, hlt, htopeq, hboteq⟩
        · -- H2H split
          subst htopeq
          subst hboteq
          have hmemTop : ∀ u ∈ resolveAux comb dis fav r fuel
              (h2hBestTeams comb tied),
              (fun t => decide (h2h_pct comb tied t.id = h2hBestPct comb tied))
                u = true := by
            intro u hu
            exact (List.mem_filter.mp (htopperm.mem_iff.mp hu)).2
          have hmemBot : ∀ u ∈ resolveAux comb dis fav r fuel
              (tied.filter (fun t =>
                !((h2hBestTeams comb tied).any (fun v => v.id == t.id)))),
              u ∈ tied ∧
                ((h2hBestTeams comb tied).any (fun v => v.id == u.id)) = false := by
            intro u hu
            have hmf := List.mem_filter.mp (hbotperm.mem_iff.mp hu)
            exact ⟨hmf.1, by simpa using hmf.2⟩
          have hmemBotP : ∀ u ∈ resolveAux comb dis fav r fuel
              (tied.filter (fun t =>
                !((h2hBestTeams comb tied).any (fun v => v.id == t.id)))),
              (fun t => decide (h2h_pct comb tied t.id = h2hBestPct comb tied))
                u = false := by
            intro u hu
            obtain ⟨hut, hany⟩ := hmemBot u hu
            by_cases hq : decide (h2h_pct comb tied u.id = h2hBestPct comb tied)
              = true
            · exfalso
              have humem : u ∈ h2hBestTeams comb tied :=
                List.mem_filter.mpr ⟨hut, hq⟩
              have : (h2hBestTeams comb tied).any
                  (fun v => v.id == u.id) = true :=
                List.any_eq_true.mpr ⟨u, humem, by simp⟩
              rw [this] at hany
              exact Bool.true_eq_false.mp hany
            · exact Bool.eq_false_iff.mpr hq
          have hv2 : h2h_pcts_valid comb (resolveAux comb dis fav r fuel
              (h2hBestTeams comb tied) ++ resolveAux comb dis fav r fuel
              (tied.filter (fun t =>
                !((h2hBestTeams comb tied).any (fun v => v.id == t.id)))))
              = true := by
            rw [h2h_pcts_valid_perm comb houtperm]
            exact hv
          have hbest2 : h2hBestTeams comb (resolveAux comb dis fav r fuel
              (h2hBestTeams comb tied) ++ resolveAux comb dis fav r fuel
              (tied.filter (fun t =>
                !((h2hBestTeams comb tied).any (fun v => v.id == t.id))))) =
              resolveAux comb dis fav r fuel (h2hBestTeams comb tied) := by
            rw [h2hBestTeams_eq_of_perm comb houtperm.symm]
            exact append_filter_left hmemTop hmemBotP
          have hne1' : (h2hBestTeams comb (resolveAux comb dis fav r fuel
              (h2hBestTeams comb tied) ++ resolveAux comb dis fav r fuel
              (tied.filter (fun t =>
                !((h2hBestTeams comb tied).any (fun v => v.id == t.id)))))).length
              ≠ 1 := by
            rw [hbest2, htopperm.length_eq]
            exact hne1
          have hlt' : (h2hBestTeams comb (resolveAux comb dis fav r fuel
              (h2hBestTeams comb tied) ++ resolveAux comb dis fav r fuel
              (tied.filter (fun t =>
                !((h2hBestTeams comb tied).any (fun v => v.id == t.id)))))).length
              < (resolveAux comb dis fav r fuel (h2hBestTeams comb tied) ++
                resolveAux comb dis fav r fuel (tied.filter (fun t =>
                  !((h2hBestTeams comb tied).any (fun v => v.id == t.id))))).length := by
            rw [hbest2, htopperm.length_eq, houtperm.length_eq]
            exact hlt
          have hstep2 := tbStep_eq_split_h2h hv2 hne1' hlt'
          rw [hbest2] at hstep2
          have hbotfilter : (resolveAux comb dis fav r fuel
              (h2hBestTeams comb tied) ++ resolveAux comb dis fav r fuel
              (tied.filter (fun t =>
                !((h2hBestTeams comb tied).any (fun v => v.id == t.id))))).filter
              (fun t => !((resolveAux comb dis fav r fuel
                (h2hBestTeams comb tied)).any (fun u => u.id == t.id))) =
              resolveAux comb dis fav r fuel (tied.filter (fun t =>
                !((h2hBestTeams comb tied).any (fun v => v.id == t.id)))) := by
            apply append_filter_right
            · intro u hu
              have : (resolveAux comb dis fav r fuel
                  (h2hBestTeams comb tied)).any (fun v => v.id == u.id) = true :=
                List.any_eq_true.mpr ⟨u, hu, by simp⟩
              rw [this]
              rfl
            · intro u hu
              have hany := (hmemBot u hu).2
              have : (resolveAux comb dis fav r fuel
                  (h2hBestTeams comb tied)).any (fun v => v.id == u.id) =
                  (h2hBestTeams comb tied).any (fun v => v.id == u.id) :=
                any_perm htopperm
              rw [this, hany]
              rfl
          rw [hbotfilter] at hstep2
          rw [resolveAux_succ_split hlen2 hstep2]
          have htopne : h2hBestTeams comb tied ≠ [] := h2hBestTeams_ne_nil htnil
          have htoplen : (h2hBestTeams comb tied).length ≤ fuel := by omega
          have hbotlen : (tied.filter (fun t =>
              !((h2hBestTeams comb tied).any (fun v => v.id == t.id)))).length
              ≤ fuel := by
            have h2 : 1 ≤ (h2hBestTeams comb tied).length :=
              List.length_pos.mpr htopne
            omega
          rw [ih _ htoplen (nodup_ids_filter hnd _),
            ih _ hbotlen (nodup_ids_filter hnd _)]
        · -- sweep-loser split
          subst htopeq
          subst hboteq
          have hf2 := h2hFall_perm houtperm.symm hf
          have hlost2 : lostTeams comb (resolveAux comb dis fav r fuel
              (tied.filter (fun t => decide (t ∉ lostTeams comb tied))) ++
              resolveAux comb dis fav r fuel (lostTeams comb tied)) =
              resolveAux comb dis fav r fuel (lostTeams comb tied) := by
            rw [lostTeams_eq_of_perm comb houtperm.symm]
            apply append_filter_right
            · intro u hu
              have hmf := List.mem_filter.mp (htopperm.mem_iff.mp hu)
              have hnotin : u ∉ lostTeams comb tied := of_decide_eq_true hmf.2
              by_cases hq : lost_to_all comb tied u = true
              · exact absurd (List.mem_filter.mpr ⟨hmf.1, hq⟩) hnotin
              · exact Bool.eq_false_iff.mpr hq
            · intro u hu
              exact (List.mem_filter.mp (hbotperm.mem_iff.mp hu)).2
          have h0' : 0 < (lostTeams comb (resolveAux comb dis fav r fuel
              (tied.filter (fun t => decide (t ∉ lostTeams comb tied))) ++
              resolveAux comb dis fav r fuel (lostTeams comb tied))).length := by
            rw [hlost2, hbotperm.length_eq]
            exact h0
          have hlt2 : (lostTeams comb (resolveAux comb dis fav r fuel
              (tied.filter (fun t => decide (t ∉ lostTeams comb tied))) ++
              resolveAux comb dis fav r fuel (lostTeams comb tied))).length <
              (resolveAux comb dis fav r fuel
                (tied.filter (fun t => decide (t ∉ lostTeams comb tied))) ++
                resolveAux comb dis fav r fuel (lostTeams comb tied)).length := by
            rw [hlost2, hbotperm.length_eq, houtperm.length_eq]
            exact hltl
          have hstep2 : tbStep comb (resolveAux comb dis fav r fuel
              (tied.filter (fun t => decide (t ∉ lostTeams comb tied))) ++
              resolveAux comb dis fav r fuel (lostTeams comb tied)) =
              TBStep.split ((resolveAux comb dis fav r fuel
                (tied.filter (fun t => decide (t ∉ lostTeams comb tied))) ++
                resolveAux comb dis fav r fuel (lostTeams comb tied)).filter
                  (fun t => decide (t ∉ lostTeams comb (resolveAux comb dis fav r
                    fuel (tied.filter (fun t => decide (t ∉ lostTeams comb tied)))
                    ++ resolveAux comb dis fav r fuel (lostTeams comb tied)))))
                (lostTeams comb (resolveAux comb dis fav r fuel
                  (tied.filter (fun t => decide (t ∉ lostTeams comb tied))) ++
                  resolveAux comb dis fav r fuel (lostTeams comb tied))) := by
            rw [tbStep_eq_elim hf2]
            exact tbStepElim_eq_split h0' hlt2
          rw [hlost2] at hstep2
          have htopfilter : (resolveAux comb dis fav r fuel
              (tied.filter (fun t => decide (t ∉ lostTeams comb tied))) ++
              resolveAux comb dis fav r fuel (lostTeams comb tied)).filter
              (fun t => decide (t ∉ resolveAux comb dis fav r fuel
                (lostTeams comb tied))) =
              resolveAux comb dis fav r fuel
                (tied.filter (fun t => decide (t ∉ lostTeams comb tied))) := by
            apply append_filter_left
            · intro u hu
              refine decide_eq_true ?_
              intro hmem
              have h1' := hbotperm.mem_iff.mp hmem
              have h2' := List.mem_filter.mp (htopperm.mem_iff.mp hu)
              exact (of_decide_eq_true h2'.2) h1'
            · intro u hu
              exact decide_eq_false (not_not_intro hu)
          rw [htopfilter] at hstep2
          rw [resolveAux_succ_split hlen2 hstep2]
          have htoplen : (tied.filter
              (fun t => decide (t ∉ lostTeams comb tied))).length ≤ fuel := by
            omega
          have hbotlen : (lostTeams comb tied).length ≤ fuel := by omega
          rw [ih _ htoplen (nodup_ids_filter hnd _), ih _ hbotlen
            (nodup_ids_filter hnd _)]
        · -- division split
          subst htopeq
          subst hboteq
          have hf2 := h2hFall_perm houtperm.symm hf
          have he2 := elimFall_perm houtperm.symm he
          have hmemTop : ∀ u ∈ resolveAux comb dis fav r fuel (divBestTeams tied),
              (fun t => decide (div_pct_lookup tied t.id = divBestPct tied))
                u = true := by
            intro u hu
            exact (List.mem_filter.mp (htopperm.mem_iff.mp hu)).2
          have hmemBot : ∀ u ∈ resolveAux comb dis fav r fuel
              (tied.filter (fun t =>
                !((divBestTeams tied).any (fun v => v.id == t.id)))),
              u ∈ tied ∧
                ((divBestTeams tied).any (fun v => v.id == u.id)) = false := by
            intro u hu
            have hmf := List.mem_filter.mp (hbotperm.mem_iff.mp hu)
            exact ⟨hmf.1, by simpa using hmf.2⟩
          have hmemBotP : ∀ u ∈ resolveAux comb dis fav r fuel
              (tied.filter (fun t =>
                !((divBestTeams tied).any (fun v => v.id == t.id)))),
              (fun t => decide (div_pct_lookup tied t.id = divBestPct tied))
                u = false := by
            intro u hu
            obtain ⟨hut, hany⟩ := hmemBot u hu
            by_cases hq : decide (div_pct_lookup tied u.id = divBestPct tied)
              = true
            · exfalso
              have humem : u ∈ divBestTeams tied :=
                List.mem_filter.mpr ⟨hut, hq⟩
              have : (divBestTeams tied).any (fun v => v.id == u.id) = true :=
                List.any_eq_true.mpr ⟨u, humem, by simp⟩
              rw [this] at hany
              exact Bool.true_eq_false.mp hany
            · exact Bool.eq_false_iff.mpr hq
          have hbest2 : divBestTeams (resolveAux comb dis fav r fuel
              (divBestTeams tied) ++ resolveAux comb dis fav r fuel
              (tied.filter (fun t =>
                !((divBestTeams tied).any (fun v => v.id == t.id))))) =
              resolveAux comb dis fav r fuel (divBestTeams tied) := by
            rw [divBestTeams_eq_of_perm houtperm.symm hnd]
            exact append_filter_left hmemTop hmemBotP
          have hne1' : (divBestTeams (resolveAux comb dis fav r fuel
              (divBestTeams tied) ++ resolveAux comb dis fav r fuel
              (tied.filter (fun t =>
                !((divBestTeams tied).any (fun v => v.id == t.id)))))).length
              ≠ 1 := by
            rw [hbest2, htopperm.length_eq]
            exact hne1
          have hlt' : (divBestTeams (resolveAux comb dis fav r fuel
              (divBestTeams tied) ++ resolveAux comb dis fav r fuel
              (tied.filter (fun t =>
                !((divBestTeams tied).any (fun v => v.id == t.id)))))).length <
              (resolveAux comb dis fav r fuel (divBestTeams tied) ++
                resolveAux comb dis fav r fuel (tied.filter (fun t =>
                  !((divBestTeams tied).any (fun v => v.id == t.id))))).length := by
            rw [hbest2, htopperm.length_eq, houtperm.length_eq]
            exact hlt
          have hstep2 : tbStep comb (resolveAux comb dis fav r fuel
              (divBestTeams tied) ++ resolveAux comb dis fav r fuel
              (tied.filter (fun t =>
                !((divBestTeams tied).any (fun v => v.id == t.id))))) =
              TBStep.split (divBestTeams (resolveAux comb dis fav r fuel
                (divBestTeams tied) ++ resolveAux comb dis fav r fuel
                (tied.filter (fun t =>
                  !((divBestTeams tied).any (fun v => v.id == t.id))))))
                ((resolveAux comb dis fav r fuel (divBestTeams tied) ++
                  resolveAux comb dis fav r fuel (tied.filter (fun t =>
                    !((divBestTeams tied).any (fun v => v.id == t.id))))).filter
                  (fun t => !((divBestTeams (resolveAux comb dis fav r fuel
                    (divBestTeams tied) ++ resolveAux comb dis fav r fuel
                    (tied.filter (fun t =>
                      !((divBestTeams tied).any (fun v => v.id == t.id)))))).any
                    (fun u => u.id == t.id)))) := by
            rw [tbStep_eq_elim hf2, tbStepElim_eq_div he2]
            exact tbStepDiv_eq_split hne1' hlt'
          rw [hbest2] at hstep2
          have hbotfilter : (resolveAux comb dis fav r fuel
              (divBestTeams tied) ++ resolveAux comb dis fav r fuel
              (tied.filter (fun t =>
                !((divBestTeams tied).any (fun v => v.id == t.id))))).filter
              (fun t => !((resolveAux comb dis fav r fuel
                (divBestTeams tied)).any (fun u => u.id == t.id))) =
              resolveAux comb dis fav r fuel (tied.filter (fun t =>
                !((divBestTeams tied).any (fun v => v.id == t.id)))) := by
            apply append_filter_right
            · intro u hu
              have : (resolveAux comb dis fav r fuel
                  (divBestTeams tied)).any (fun v => v.id == u.id) = true :=
                List.any_eq_true.mpr ⟨u, hu, by simp⟩
              rw [this]
              rfl
            · intro u hu
              have hany := (hmemBot u hu).2
              have : (resolveAux comb dis fav r fuel
                  (divBestTeams tied)).any (fun v => v.id == u.id) =
                  (divBestTeams tied).any (fun v => v.id == u.id) :=
                any_perm htopperm
              rw [this, hany]
              rfl
          rw [hbotfilter] at hstep2
          rw [resolveAux_succ_split hlen2 hstep2]
          have htopne : divBestTeams tied ≠ [] := divBestTeams_ne_nil htnil
          have htoplen : (divBestTeams tied).length ≤ fuel := by omega
          have hbotlen : (tied.filter (fun t =>
              !((divBestTeams tied).any (fun v => v.id == t.id)))).length
              ≤ fuel := by
            have h2 : 1 ≤ (divBestTeams tied).length :=
              List.length_pos.mpr htopne
            omega
          rw [ih _ htoplen (nodup_ids_filter hnd _),
            ih _ hbotlen (nodup_ids_filter hnd _)]
      · -- coin case
        have hout := @resolveAux_succ_coin comb dis fav r fuel tied h1 hstep
        rw [hout]
        have houtperm : (coinFlipOrder dis fav r tied).Perm tied := by
          unfold coinFlipOrder
          exact List.mergeSort_perm tied _
        have hlen2 : ¬ (coinFlipOrder dis fav r tied).length ≤ 1 := by
          rw [houtperm.length_eq]
          exact h1
        obtain ⟨hf, he, hne1, hnlt⟩ := tbStep_coin_inv hstep
        have hf2 := h2hFall_perm houtperm.symm hf
        have he2 := elimFall_perm houtperm.symm he
        have hne1' : (divBestTeams (coinFlipOrder dis fav r tied)).length ≠ 1 := by
          rw [(divBestTeams_perm houtperm.symm hnd).length_eq]
          exact hne1
        have hnlt' : ¬ (divBestTeams (coinFlipOrder dis fav r tied)).length <
            (coinFlipOrder dis fav r tied).length := by
          rw [(divBestTeams_perm houtperm.symm hnd).length_eq, houtperm.length_eq]
          exact hnlt
        have hstep2 : tbStep comb (coinFlipOrder dis fav r tied) =
            TBStep.coin := by
          rw [tbStep_eq_elim hf2, tbStepElim_eq_div he2]
          exact tbStepDiv_eq_coin hne1' hnlt'
        rw [resolveAux_succ_coin hlen2 hstep2]
        exact coinFlipOrder_idem dis fav r tied

/-- C6: `resolve_tiebreaker` is idempotent: applying it to its own output
with the same bias ids, H2H inputs and randomness source yields the same
order, for every group of tied teams with unique team ids (team ids are
unique within a snapshot). -/
theorem c6_resolve_tiebreaker_idem (h2h sim_h2h : H2H)
    (disfavor_id favor_id : Option ℕ) (r : ℕ → ℚ) (tied_teams : List Team)
    (hnd : (tied_teams.map Team.id).Nodup) :
    resolve_tiebreaker h2h sim_h2h disfavor_id favor_id r
      (resolve_tiebreaker h2h sim_h2h disfavor_id favor_id r tied_teams) =
      resolve_tiebreaker h2h sim_h2h disfavor_id favor_id r tied_teams := by
  unfold resolve_tiebreaker
  have hlen : (resolveAux (combineH2H h2h sim_h2h) disfavor_id favor_id r
      tied_teams.length tied_teams).length = tied_teams.length :=
    (resolveAux_perm _ _ _ _ _ _).length_eq
  rw [hlen]
  exact resolveAux_idem _ _ _ _ _ _ (le_refl _) hnd

/-- Witness for C6 at a concrete two-team group with distinct ids. -/
theorem c6_resolve_tiebreaker_idem_witness :
    (([⟨1, "A", 0, 3, 1, 0, 1, 0, 0⟩, ⟨2, "B", 0, 3, 1, 0, 0, 1, 0⟩] :
      List Team).map Team.id).Nodup ∧
    resolve_tiebreaker (fun _ => (0, 0, 0)) (fun _ => (0, 0, 0)) none none
      (fun _ => 0)
      (resolve_tiebreaker (fun _ => (0, 0, 0)) (fun _ => (0, 0, 0)) none none
        (fun _ => 0)
        [⟨1, "A", 0, 3, 1, 0, 1, 0, 0⟩, ⟨2, "B", 0, 3, 1, 0, 0, 1, 0⟩]) =
      resolve_tiebreaker (fun _ => (0, 0, 0)) (fun _ => (0, 0, 0)) none none
        (fun _ => 0)
        [⟨1, "A", 0, 3, 1, 0, 1, 0, 0⟩, ⟨2, "B", 0, 3, 1, 0, 0, 1, 0⟩] :=
  ⟨by decide, c6_resolve_tiebreaker_idem _ _ _ _ _ _ (by decide)⟩

/-- A scheduled matchup as in `simulator/models.py` (`Matchup`
dataclass). -/
structure Matchup where
  home_team_id : ℕ
  away_team_id : ℕ
  week : ℕ
  is_division_game : Bool
deriving DecidableEq

/-- `games_remaining[tid]` of `calculate_magic_numbers`: each remaining
matchup adds one game for its home and one for its away team. -/
def games_remaining (remaining : List Matchup) (tid : ℕ) : ℕ :=
  (remaining.filter (fun m => m.home_team_id == tid)).length +
    (remaining.filter (fun m => m.away_team_id == tid)).length

/-- `games_between[a][b]` of `calculate_magic_numbers`: remaining head-to-
head matchups between the two ids (counted in both orientations). -/
def games_between (remaining : List Matchup) (a b : ℕ) : ℕ :=
  (remaining.filter (fun m => m.home_team_id == a && m.away_team_id == b)).length +
    (remaining.filter (fun m => m.home_team_id == b && m.away_team_id == a)).length

/-- `effective_wins`: `wins + 0.5 · ties`. -/
def effective_wins (t : Team) : ℚ := (t.wins : ℚ) + (1/2) * t.ties

/-- Result of the own-tiebreaker oracle of `calculate_magic_numbers`. -/
inductive TBOwn where
  | win : TBOwn
  | lose : TBOwn
  | uncertain : TBOwn
deriving DecidableEq

/-- The `teams[...]` dict lookup used for the division-record comparison
inside `owns_tiebreaker` (ids are unique dict keys). -/
def div_pct_of (teams : List Team) (tid : ℕ) : ℚ :=
  match teams.find? (fun t => t.id == tid) with
  | some t => division_win_pct t
  | none => 0

/-- The division-record fallback of `owns_tiebreaker`. -/
def ownsDivStep (teams : List Team) (team1_id team2_id : ℕ) : TBOwn :=
  if div_pct_of teams team2_id < div_pct_of teams team1_id then TBOwn.win
  else if div_pct_of teams team1_id < div_pct_of teams team2_id then TBOwn.lose
  else TBOwn.uncertain

/-- `owns_tiebreaker` of `magic_numbers.py`: H2H with an adversarial
assignment of the still-to-play games when any remain, falling back to
the division record, else uncertain. -/
def owns_tiebreaker (teams : List Team) (remaining : List Matchup) (h2h : H2H)
    (team1_id team2_id : ℕ) : TBOwn :=
  if 0 < games_between remaining team1_id team2_id then
    if (get_h2h_record h2h team1_id team2_id).2.1 +
        games_between remaining team1_id team2_id <
        (get_h2h_record h2h team1_id team2_id).1 then TBOwn.win
    else if (get_h2h_record h2h team1_id team2_id).1 +
        games_between remaining team1_id team2_id <
        (get_h2h_record h2h team1_id team2_id).2.1 then TBOwn.lose
    else ownsDivStep teams team1_id team2_id
  else
    if (get_h2h_record h2h team1_id team2_id).2.1 <
        (get_h2h_record h2h team1_id team2_id).1 then TBOwn.win
    else if (get_h2h_record h2h team1_id team2_id).1 <
        (get_h2h_record h2h team1_id team2_id).2.1 then TBOwn.lose
    else ownsDivStep teams team1_id team2_id

/-- The per-rival wins-needed computation of `calculate_magic_numbers`
(lines used for division, playoffs and first seed alike): with the
tiebreaker owned a tie suffices, otherwise strict excess (`+0.001`)
is required; negative gaps become 0. -/
def wins_needed (owns : TBOwn) (gap : ℚ) : ℤ :=
  match owns with
  | TBOwn.win => if gap ≤ 0 then 0 else ⌈gap⌉
  | _ => if gap < 0 then 0 else ⌈gap + 1/1000⌉

/-- `rival_max_full`: the rival wins out. -/
def rival_max_full (remaining : List Matchup) (rival : Team) : ℚ :=
  effective_wins rival + games_remaining remaining rival.id

/-- `rival_max_sub`: the rival loses its games against the team. -/
def rival_max_sub (remaining : List Matchup) (rival : Team) (tid : ℕ) : ℚ :=
  rival_max_full remaining rival - games_between remaining rival.id tid

/-- The division rivals of a team (same division, different id). -/
def div_rivals (teams : List Team) (team : Team) : List Team :=
  (teams.filter (fun t => t.division_id == team.division_id)).filter
    (fun t => t.id != team.id)

/-- All other teams of the snapshot. -/
def other_teams (teams : List Team) (team : Team) : List Team :=
  teams.filter (fun t => t.id != team.id)

/-- The conservative max-accumulation loop over a rival set. -/
def needs_cons (teams : List Team) (remaining : List Matchup) (h2h : H2H)
    (team : Team) (rivals : List Team) : ℤ :=
  rivals.foldl (fun acc rival =>
    max acc (wins_needed (owns_tiebreaker teams remaining h2h team.id rival.id)
      (rival_max_full remaining rival - effective_wins team))) 0

/-- The with-subtraction max-accumulation loop over a rival set. -/
def needs_sub (teams : List Team) (remaining : List Matchup) (h2h : H2H)
    (team : Team) (rivals : List Team) : ℤ :=
  rivals.foldl (fun acc rival =>
    max acc (wins_needed (owns_tiebreaker teams remaining h2h team.id rival.id)
      (rival_max_sub remaining rival team.id - effective_wins team))) 0

/-- The final selection of `calculate_magic_numbers`: the conservative
need if it fits, else run the table if the subtraction-aided need fits,
else impossible; a result of 0 is reported as already clinched (`None`). -/
def magic_select (cons sub : ℤ) (team_remaining : ℕ) : Option ℤ :=
  if cons ≤ (team_remaining : ℤ) then (if cons = 0 then none else some cons)
  else if sub ≤ (team_remaining : ℤ) then
    (if (team_remaining : ℤ) = 0 then none else some (team_remaining : ℤ))
  else none

/-- The `magic_division` computation of `calculate_magic_numbers`. -/
def magic_division_for (teams : List Team) (remaining : List Matchup)
    (h2h : H2H) (team : Team) : Option ℤ :=
  if div_rivals teams team = [] then none
  else magic_select
    (needs_cons teams remaining h2h team (div_rivals teams team))
    (needs_sub teams remaining h2h team (div_rivals teams team))
    (games_remaining remaining team.id)

/-- The `(id, potential)` list under the conservative bound. -/
def potential_conservative (teams : List Team) (remaining : List Matchup)
    (team : Team) : List (ℕ × ℚ) :=
  (other_teams teams team).map (fun o => (o.id, rival_max_full remaining o))

/-- The `(id, potential)` list under the with-subtraction bound. -/
def potential_with_sub (teams : List Team) (remaining : List Matchup)
    (team : Team) : List (ℕ × ℚ) :=
  (other_teams teams team).map (fun o => (o.id, rival_max_sub remaining o team.id))

/-- `sorted(..., key=lambda x: x[1], reverse=True)`: stable descending
sort by the potential. -/
def sortDescBySnd (l : List (ℕ × ℚ)) : List (ℕ × ℚ) :=
  l.mergeSort (fun a b => decide (b.2 ≤ a.2))

/-- The `magic_playoffs` computation of `calculate_magic_numbers`: the
Nth-best potential under each ordering sets the bar. -/
def magic_playoffs_for (teams : List Team) (remaining : List Matchup)
    (h2h : H2H) (playoff_spots : ℕ) (team : Team) : Option ℤ :=
  if playoff_spots ≤ (potential_conservative teams remaining team).length then
    magic_select
      (wins_needed
        (owns_tiebreaker teams remaining h2h team.id
          (((sortDescBySnd (potential_conservative teams remaining team)).getD
            (playoff_spots - 1) (0, 0)).1))
        (((sortDescBySnd (potential_conservative teams remaining team)).getD
            (playoff_spots - 1) (0, 0)).2 - effective_wins team))
      (wins_needed
        (owns_tiebreaker teams remaining h2h team.id
          (((sortDescBySnd (potential_with_sub teams remaining team)).getD
            (playoff_spots - 1) (0, 0)).1))
        (((sortDescBySnd (potential_with_sub teams remaining team)).getD
            (playoff_spots - 1) (0, 0)).2 - effective_wins team))
      (games_remaining remaining team.id)
  else none

/-- The `magic_first_seed` computation of `calculate_magic_numbers`. -/
def magic_first_for (teams : List Team) (remaining : List Matchup)
    (h2h : H2H) (team : Team) : Option ℤ :=
  if other_teams teams team = [] then none
  else magic_select
    (needs_cons teams remaining h2h team (other_teams teams team))
    (needs_sub teams remaining h2h team (other_teams teams team))
    (games_remaining remaining team.id)

/-- The `magic_last` computation of `calculate_magic_numbers`: losses
needed to fall to last place. -/
def magic_last_for (teams : List Team) (remaining : List Matchup)
    (team : Team) : Option ℤ :=
  if other_teams teams team = [] then none
  else
    if effective_wins team + games_remaining remaining team.id -
        listMin ((other_teams teams team).map effective_wins) < 0 then none
    else
      if (games_remaining remaining team.id : ℤ) <
          ⌈effective_wins team + games_remaining remaining team.id -
            listMin ((other_teams teams team).map effective_wins) + 1/1000⌉
      then none
      else some ⌈effective_wins team + games_remaining remaining team.id -
        listMin ((other_teams teams team).map effective_wins) + 1/1000⌉

/-- The magic-numbers record of `simulator/models.py`. -/
structure MagicNumbers where
  team_id : ℕ
  magic_division : Option ℤ
  magic_playoffs : Option ℤ
  magic_first_seed : Option ℤ
  magic_last : Option ℤ
deriving DecidableEq

/-- `calculate_magic_numbers` of `magic_numbers.py`, per team: assemble
the four magic numbers. -/
def calculate_magic_numbers (teams : List Team) (remaining : List Matchup)
    (h2h : H2H) (playoff_spots : ℕ) (team : Team) : MagicNumbers :=
  ⟨team.id,
   magic_division_for teams remaining h2h team,
   magic_playoffs_for teams remaining h2h playoff_spots team,
   magic_first_for teams remaining h2h team,
   magic_last_for teams remaining team⟩

/-- A left fold of `min` either returns its seed or a list member. -/
lemma foldl_min_mem :
    ∀ (xs : List ℚ) (a : ℚ), xs.foldl min a = a ∨ xs.foldl min a ∈ xs := by
  intro xs
  induction xs with
  | nil => intro a; left; rfl
  | cons x xs ih =>
    intro a
    rcases ih (min a x) with h | h
    · rcases min_choice a x with hm | hm
      · left; rw [List.foldl_cons, h, hm]
      · right; rw [List.foldl_cons, h, hm]; exact List.mem_cons_self x xs
    · right; exact List.mem_cons_of_mem x h

/-- A left fold of `min` is below its seed. -/
lemma foldl_min_le : ∀ (xs : List ℚ) (a : ℚ), xs.foldl min a ≤ a := by
  intro xs
  induction xs with
  | nil => intro a; exact le_refl a
  | cons x xs ih => intro a; exact le_trans (ih (min a x)) (min_le_left a x)

/-- A left fold of `min` is below every member. -/
lemma foldl_min_le_mem :
    ∀ (xs : List ℚ) (a x : ℚ), x ∈ xs → xs.foldl min a ≤ x := by
  intro xs
  induction xs with
  | nil => intro a x hx; simp at hx
  | cons y ys ih =>
    intro a x hx
    rcases List.mem_cons.mp hx with rfl | hx
    · exact le_trans (foldl_min_le ys (min a x)) (min_le_right a x)
    · exact ih (min a y) x hx

/-- `listMin` of a nonempty list is a member. -/
lemma listMin_mem {l : List ℚ} (h : l ≠ []) : listMin l ∈ l := by
  cases l with
  | nil => exact absurd rfl h
  | cons x xs =>
    rcases foldl_min_mem xs x with h1 | h1
    · rw [listMin, h1]; exact List.mem_cons_self x xs
    · rw [listMin]; exact List.mem_cons_of_mem x h1

/-- `listMin` is below every member. -/
lemma listMin_le {l : List ℚ} {x : ℚ} (hx : x ∈ l) : listMin l ≤ x := by
  cases l with
  | nil => simp at hx
  | cons y ys =>
    rcases List.mem_cons.mp hx with rfl | h
    · exact foldl_min_le ys x
    · exact foldl_min_le_mem ys y x h

/-- C3: for every team with at least one other team in the snapshot,
`calculate_magic_numbers` computes `magic_last` from
`gap = ew(team) + games_remaining[team] − min_other_ew` (where `m` is
characterised as the minimum of the other teams' effective wins): `None`
when `gap < 0`, otherwise `ceil(gap + 0.001)`, replaced by `None` when
that value exceeds `games_remaining[team]`. -/
theorem c3_magic_last (teams : List Team) (remaining : List Matchup)
    (h2h : H2H) (playoff_spots : ℕ) (team : Team) (m : ℚ)
    (hmem : m ∈ (other_teams teams team).map effective_wins)
    (hmin : ∀ x ∈ (other_teams teams team).map effective_wins, m ≤ x) :
    (calculate_magic_numbers teams remaining h2h playoff_spots team).magic_last =
      if effective_wins team + games_remaining remaining team.id - m < 0 then
        none
      else if (games_remaining remaining team.id : ℤ) <
          ⌈effective_wins team + games_remaining remaining team.id - m + 1/1000⌉
        then none
      else some
        ⌈effective_wins team + games_remaining remaining team.id - m + 1/1000⌉ := by
  have hne : other_teams teams team ≠ [] := by
    intro hc
    rw [hc] at hmem
    simp at hmem
  have hmapne : (other_teams teams team).map effective_wins ≠ [] := by
    simpa using hne
  have heq : listMin ((other_teams teams team).map effective_wins) = m :=
    le_antisymm (listMin_le hmem) (hmin _ (listMin_mem hmapne))
  show magic_last_for teams remaining team = _
  unfold magic_last_for
  rw [if_neg hne, heq]

/-- Witness for C3: a two-team snapshot with no games left; the leader
cannot fall to last, so `magic_last = None`. -/
theorem c3_magic_last_witness :
    ((1 : ℚ) ∈ (other_teams [⟨1, "A", 0, 3, 1, 0, 1, 0, 0⟩,
      ⟨2, "B", 0, 1, 3, 0, 0, 1, 0⟩] ⟨1, "A", 0, 3, 1, 0, 1, 0, 0⟩).map
        effective_wins) ∧
    (calculate_magic_numbers [⟨1, "A", 0, 3, 1, 0, 1, 0, 0⟩,
      ⟨2, "B", 0, 1, 3, 0, 0, 1, 0⟩] [] (fun _ => (0, 0, 0)) 6
      ⟨1, "A", 0, 3, 1, 0, 1, 0, 0⟩).magic_last =
      if effective_wins ⟨1, "A", 0, 3, 1, 0, 1, 0, 0⟩ +
          games_remaining [] 1 - 1 < 0 then none
      else if (games_remaining [] 1 : ℤ) <
          ⌈effective_wins ⟨1, "A", 0, 3, 1, 0, 1, 0, 0⟩ +
            games_remaining [] 1 - 1 + 1/1000⌉ then none
      else some ⌈effective_wins ⟨1, "A", 0, 3, 1, 0, 1, 0, 0⟩ +
        games_remaining [] 1 - 1 + 1/1000⌉ := by
  constructor
  · norm_num [other_teams, effective_wins, List.filter_cons]
  · exact c3_magic_last _ _ _ _ _ 1
      (by norm_num [other_teams, effective_wins, List.filter_cons])
      (by
        intro x hx
        norm_num [other_teams, effective_wins, List.filter_cons] at hx
        rw [hx])

/-- C4: the per-rival wins-needed value in `calculate_magic_numbers` is
computed from `gap = max_r − ew(team)`: with the tiebreaker owned, 0 when
`gap ≤ 0` and `ceil(gap)` otherwise; with it lost or uncertain, 0 when
`gap < 0` and `ceil(gap + 0.001)` otherwise.  Hence a tie suffices only
when the team owns the tiebreaker, and negative gaps become 0. -/
theorem c4_wins_needed_formula (teams : List Team) (remaining : List Matchup)
    (h2h : H2H) (team rival : Team) (maxr : ℚ) :
    (owns_tiebreaker teams remaining h2h team.id rival.id = TBOwn.win →
      wins_needed (owns_tiebreaker teams remaining h2h team.id rival.id)
        (maxr - effective_wins team) =
        if maxr - effective_wins team ≤ 0 then 0
        else ⌈maxr - effective_wins team⌉) ∧
    (owns_tiebreaker teams remaining h2h team.id rival.id ≠ TBOwn.win →
      wins_needed (owns_tiebreaker teams remaining h2h team.id rival.id)
        (maxr - effective_wins team) =
        if maxr - effective_wins team < 0 then 0
        else ⌈maxr - effective_wins team + 1/1000⌉) ∧
    (maxr - effective_wins team < 0 →
      wins_needed (owns_tiebreaker teams remaining h2h team.id rival.id)
        (maxr - effective_wins team) = 0) ∧
    (maxr - effective_wins team = 0 →
      (wins_needed (owns_tiebreaker teams remaining h2h team.id rival.id)
        (maxr - effective_wins team) = 0 ↔
        owns_tiebreaker teams remaining h2h team.id rival.id = TBOwn.win)) := by
  have hceil : ⌈(1/1000 : ℚ)⌉ = 1 := by norm_num [Int.ceil_eq_iff]
  refine ⟨?_, ?_, ?_, ?_⟩
  · intro h
    rw [h]
    rfl
  · intro h
    rcases howns : owns_tiebreaker teams remaining h2h team.id rival.id with
      _ | _ | _
    · exact absurd howns h
    · rfl
    · rfl
  · intro hneg
    rcases howns : owns_tiebreaker teams remaining h2h team.id rival.id with
      _ | _ | _
    · simp [wins_needed, le_of_lt hneg]
    · simp [wins_needed, hneg]
    · simp [wins_needed, hneg]
  · intro h0
    rw [h0]
    rcases howns : owns_tiebreaker teams remaining h2h team.id rival.id with
      _ | _ | _
    · simp [wins_needed]
    · simp [wins_needed, hceil]
    · simp [wins_needed, hceil]

/-- Witness for C4 at a team that owns the tiebreaker (2-0 head-to-head,
no games left between them). -/
theorem c4_wins_needed_witness :
    owns_tiebreaker [⟨1, "A", 0, 3, 1, 0, 1, 0, 0⟩, ⟨2, "B", 0, 1, 3, 0, 0, 1, 0⟩]
      [] (fun key => if key = (1, 2) then (2, 0, 0) else (0, 0, 0)) 1 2 =
      TBOwn.win ∧
    wins_needed (owns_tiebreaker [⟨1, "A", 0, 3, 1, 0, 1, 0, 0⟩,
        ⟨2, "B", 0, 1, 3, 0, 0, 1, 0⟩] []
        (fun key => if key = (1, 2) then (2, 0, 0) else (0, 0, 0)) 1 2)
      ((5 : ℚ) - effective_wins ⟨1, "A", 0, 3, 1, 0, 1, 0, 0⟩) =
      if (5 : ℚ) - effective_wins ⟨1, "A", 0, 3, 1, 0, 1, 0, 0⟩ ≤ 0 then 0
      else ⌈(5 : ℚ) - effective_wins ⟨1, "A", 0, 3, 1, 0, 1, 0, 0⟩⌉ :=
  ⟨by decide,
   (c4_wins_needed_formula [⟨1, "A", 0, 3, 1, 0, 1, 0, 0⟩,
      ⟨2, "B", 0, 1, 3, 0, 0, 1, 0⟩] []
      (fun key => if key = (1, 2) then (2, 0, 0) else (0, 0, 0))
      ⟨1, "A", 0, 3, 1, 0, 1, 0, 0⟩ ⟨2, "B", 0, 1, 3, 0, 0, 1, 0⟩ 5).1
    (by decide)⟩

/-- C10: in a snapshot with at most `playoff_spots` teams, every team has
strictly fewer than `playoff_spots` other teams, so
`calculate_magic_numbers` reports `magic_playoffs = None` for every team,
even for teams that trivially qualify. -/
theorem c10_small_league_magic_playoffs_none (teams : List Team)
    (remaining : List Matchup) (h2h : H2H) (playoff_spots : ℕ)
    (hle : teams.length ≤ playoff_spots) :
    ∀ team ∈ teams,
      (calculate_magic_numbers teams remaining h2h playoff_spots
        team).magic_playoffs = none := by
  intro team ht
  show magic_playoffs_for teams remaining h2h playoff_spots team = none
  unfold magic_playoffs_for
  rw [if_neg]
  intro hcond
  have hlen : (potential_conservative teams remaining team).length =
      (other_teams teams team).length := by
    unfold potential_conservative
    exact List.length_map _ _
  have hlt : (other_teams teams team).length < teams.length := by
    unfold other_teams
    exact List.length_filter_lt_length_iff_exists.mpr ⟨team, ht, by simp⟩
  omega

/-- Witness for C10: two teams, six playoff spots. -/
theorem c10_small_league_witness :
    (([⟨1, "A", 0, 3, 1, 0, 1, 0, 0⟩, ⟨2, "B", 0, 1, 3, 0, 0, 1, 0⟩] :
      List Team).length ≤ 6) ∧
    (calculate_magic_numbers [⟨1, "A", 0, 3, 1, 0, 1, 0, 0⟩,
      ⟨2, "B", 0, 1, 3, 0, 0, 1, 0⟩] [] (fun _ => (0, 0, 0)) 6
      ⟨1, "A", 0, 3, 1, 0, 1, 0, 0⟩).magic_playoffs = none :=
  ⟨by decide,
   c10_small_league_magic_playoffs_none _ [] (fun _ => (0, 0, 0)) 6
     (by decide) _ (by decide)⟩

/-- The two scenario-generation strategies dispatched by
`run_simulation_task`. -/
inductive ScenarioPath where
  | bruteForce : ScenarioPath
  | analytical : ScenarioPath
deriving DecidableEq

/-- The dispatch in `run_simulation_task` (`simulations_routes.py`):
`brute_force_clinch_elimination` when `len(remaining) <= 10`, else the
analytical `generate_clinch_elimination_scenarios`. -/
def scenario_generation_path (remaining : List Matchup) : ScenarioPath :=
  if remaining.length ≤ 10 then ScenarioPath.bruteForce
  else ScenarioPath.analytical

/-- C7: the scenario generator takes the brute-force path exactly when
the total number of remaining matchups is at most 10, and the analytical
path exactly when it exceeds 10. -/
theorem c7_scenario_dispatch (remaining : List Matchup) :
    (scenario_generation_path remaining = ScenarioPath.bruteForce ↔
      remaining.length ≤ 10) ∧
    (scenario_generation_path remaining = ScenarioPath.analytical ↔
      10 < remaining.length) := by
  unfold scenario_generation_path
  by_cases h : remaining.length ≤ 10
  · rw [if_pos h]
    constructor
    · simp [h]
    · constructor
      · intro hc
        simp at hc
      · intro hc
        omega
  · rw [if_neg h]
    constructor
    · constructor
      · intro hc
        simp at hc
      · intro hc
        exact absurd hc h
    · simp
      omega

/-- The probability cap of `run_simulation_task`: a category whose magic
number is not `None` and whose Monte Carlo frequency is at least 0.9995
is reported as 0.999; otherwise the raw frequency passes through. -/
def capPct (magic : Option ℤ) (pct : ℚ) : ℚ :=
  match magic with
  | some _ => if 9995/10000 ≤ pct then 999/1000 else pct
  | none => pct

/-- The four capped percentages (division, playoffs, first seed, last
place) assembled for a team result in `run_simulation_task`. -/
def capped_pcts (magic : MagicNumbers)
    (div_pct playoff_pct first_seed_pct last_pct : ℚ) : ℚ × ℚ × ℚ × ℚ :=
  (capPct magic.magic_division div_pct,
   capPct magic.magic_playoffs playoff_pct,
   capPct magic.magic_first_seed first_seed_pct,
   capPct magic.magic_last last_pct)

/-- C8: for every team and every category: when the magic number is not
`None` and the Monte Carlo frequency rounds to 1.000 (is at least
0.9995), the reported probability is clamped to 0.999; when the magic
number is `None`, the raw frequency is reported unchanged. -/
theorem c8_probability_clamp (magic : MagicNumbers)
    (div_pct playoff_pct first_seed_pct last_pct : ℚ) :
    ((magic.magic_division ≠ none → 9995/10000 ≤ div_pct →
      (capped_pcts magic div_pct playoff_pct first_seed_pct last_pct).1 =
        999/1000) ∧
     (magic.magic_division = none →
      (capped_pcts magic div_pct playoff_pct first_seed_pct last_pct).1 =
        div_pct)) ∧
    ((magic.magic_playoffs ≠ none → 9995/10000 ≤ playoff_pct →
      (capped_pcts magic div_pct playoff_pct first_seed_pct last_pct).2.1 =
        999/1000) ∧
     (magic.magic_playoffs = none →
      (capped_pcts magic div_pct playoff_pct first_seed_pct last_pct).2.1 =
        playoff_pct)) ∧
    ((magic.magic_first_seed ≠ none → 9995/10000 ≤ first_seed_pct →
      (capped_pcts magic div_pct playoff_pct first_seed_pct last_pct).2.2.1 =
        999/1000) ∧
     (magic.magic_first_seed = none →
      (capped_pcts magic div_pct playoff_pct first_seed_pct last_pct).2.2.1 =
        first_seed_pct)) ∧
    ((magic.magic_last ≠ none → 9995/10000 ≤ last_pct →
      (capped_pcts magic div_pct playoff_pct first_seed_pct last_pct).2.2.2 =
        999/1000) ∧
     (magic.magic_last = none →
      (capped_pcts magic div_pct playoff_pct first_seed_pct last_pct).2.2.2 =
        last_pct)) := by
  refine ⟨⟨?_, ?_⟩, ⟨?_, ?_⟩, ⟨?_, ?_⟩, ⟨?_, ?_⟩⟩ <;>
    first
    | (intro hne hge
       rcases hm : «magic».magic_division with _ | v
       · exact absurd hm hne
       · simp [capped_pcts, capPct, hm, hge])
    | skip
  all_goals
    first
    | (intro hne hge
       rcases hm : «magic».magic_playoffs with _ | v
       · exact absurd hm hne
       · simp [capped_pcts, capPct, hm, hge])
    | skip
  all_goals
    first
    | (intro hne hge
       rcases hm : «magic».magic_first_seed with _ | v
       · exact absurd hm hne
       · simp [capped_pcts, capPct, hm, hge])
    | skip
  all_goals
    first
    | (intro hne hge
       rcases hm : «magic».magic_last with _ | v
       · exact absurd hm hne
       · simp [capped_pcts, capPct, hm, hge])
    | skip
  all_goals
    intro hm
  all_goals
    simp [capped_pcts, capPct, hm]

/-- Witness for C8: a capped category (magic number present, frequency
1.0) and an uncapped one (magic number `None`). -/
theorem c8_probability_clamp_witness :
    (capped_pcts ⟨1, some 2, none, some 3, none⟩ 1 (1/2) (9995/10000) 1).1 =
      999/1000 ∧
    (capped_pcts ⟨1, some 2, none, some 3, none⟩ 1 (1/2) (9995/10000) 1).2.1 =
      1/2 :=
  ⟨(c8_probability_clamp ⟨1, some 2, none, some 3, none⟩ 1 (1/2)
      (9995/10000) 1).1.1 (by simp) (by norm_num),
   (c8_probability_clamp ⟨1, some 2, none, some 3, none⟩ 1 (1/2)
      (9995/10000) 1).2.1.2 rfl⟩

/-- The progress value passed at a trial index:
`sim_idx / n_simulations * 100` (float division modelled on ℚ). -/
def progress_value (n_simulations i : ℕ) : ℚ :=
  (i : ℚ) / (n_simulations : ℚ) * 100

/-- The sequence of values passed to the progress callback by
`simulate_season`: the value at every trial index divisible by 100, then
the final `progress(100)` call. -/
def progress_calls (n_simulations : ℕ) : List ℚ :=
  ((List.range n_simulations).filter (fun i => i % 100 == 0)).map
    (progress_value n_simulations) ++ [100]

/-- A later trial index yields a progress value at least as large. -/
lemma progress_val_mono {n a b : ℕ} (hab : a ≤ b) :
    progress_value n a ≤ progress_value n b := by
  unfold progress_value
  rcases Nat.eq_zero_or_pos n with hn | hn
  · subst hn
    norm_num
  · have hnq : (0 : ℚ) < n := by exact_mod_cast hn
    have habq : (a : ℚ) ≤ b := by exact_mod_cast hab
    gcongr

/-- A progress value of a trial index below the trial count lies in
`[0, 100]`. -/
lemma progress_val_bounds {n i : ℕ} (hi : i < n) :
    0 ≤ progress_value n i ∧ progress_value n i ≤ 100 := by
  unfold progress_value
  have hn : 0 < n := Nat.lt_of_le_of_lt (Nat.zero_le i) hi
  have hnq : (0 : ℚ) < n := by exact_mod_cast hn
  constructor
  · positivity
  · rw [div_mul_eq_mul_div, div_le_iff hnq]
    have hiq : (i : ℚ) ≤ n := by exact_mod_cast hi.le
    nlinarith

/-- C9 (counterexample to the claim as stated): with 150 trials, the
callback receives `100/150·100 = 200/3` at trial index 100, which is not
an integer — the engine passes floats, not integers. -/
theorem c9_counterexample :
    (200/3 : ℚ) ∈ progress_calls 150 ∧ ¬ ∃ z : ℤ, (200/3 : ℚ) = z := by
  constructor
  · unfold progress_calls
    refine List.mem_append.mpr (Or.inl ?_)
    refine List.mem_map.mpr ⟨100, ?_, by norm_num [progress_value]⟩
    exact List.mem_filter.mpr ⟨List.mem_range.mpr (by norm_num), by decide⟩
  · rintro ⟨z, hz⟩
    have h3 : (3 : ℚ) * z = 200 := by
      rw [← hz]
      ring
    have h3z : (3 * z : ℤ) = 200 := by exact_mod_cast h3
    omega

/-- C9 (amended): for every trial count, the progress callback receives
rational (float) values in `[0, 100]` — integral only by coincidence —
in monotonically non-decreasing order, and the final invocation passes
exactly 100. -/
theorem c9_progress_monotone (n_simulations : ℕ) :
    List.Pairwise (fun a b => a ≤ b) (progress_calls n_simulations) ∧
    (∀ x ∈ progress_calls n_simulations, 0 ≤ x ∧ x ≤ 100) ∧
    (progress_calls n_simulations).getLast? = some 100 := by
  refine ⟨?_, ?_, ?_⟩
  · unfold progress_calls
    rw [List.pairwise_append]
    refine ⟨?_, by simp, ?_⟩
    · rw [List.pairwise_map]
      have hpw : List.Pairwise (fun a b => a < b)
          ((List.range n_simulations).filter (fun i => i % 100 == 0)) :=
        List.Pairwise.sublist (List.filter_sublist (List.range n_simulations))
          (List.pairwise_lt_range n_simulations)
      exact hpw.imp (fun hab => progress_val_mono (le_of_lt hab))
    · intro a ha b hb
      rw [List.mem_singleton.mp hb]
      obtain ⟨i, hi, rfl⟩ := List.mem_map.mp ha
      exact (progress_val_bounds
        (List.mem_range.mp (List.mem_filter.mp hi).1)).2
  · intro x hx
    unfold progress_calls at hx
    rcases List.mem_append.mp hx with h | h
    · obtain ⟨i, hi, rfl⟩ := List.mem_map.mp h
      exact progress_val_bounds (List.mem_range.mp (List.mem_filter.mp hi).1)
    · rw [List.mem_singleton.mp h]
      norm_num
  · unfold progress_calls
    exact List.getLast?_concat _

/-- The division ids of `determine_playoffs`: grouping keys, iterated in
sorted order (`sorted(divisions.items())`). -/
def divisionIds (teams : List Team) : List ℕ :=
  ((teams.map Team.division_id).dedup).mergeSort (fun a b => decide (a ≤ b))

/-- The members of one division, in snapshot order. -/
def divisionTeams (teams : List Team) (did : ℕ) : List Team :=
  teams.filter (fun t => t.division_id == did)

/-- `sorted(..., key=lambda t: t.win_pct, reverse=True)`: stable
descending sort by overall percentage. -/
def sortTeamsByPctDesc (l : List Team) : List Team :=
  l.mergeSort (fun a b => decide (win_pct b ≤ win_pct a))

/-- The group tied with the leader of an already-sorted list
(`[t for t in sorted_div if t.win_pct == best_pct]`). -/
def firstTiedGroup (sorted : List Team) : List Team :=
  match sorted with
  | [] => []
  | t :: _ => sorted.filter (fun u => decide (win_pct u = win_pct t))

/-- `if len(tied) > 1: tied = resolve_tiebreaker(...)`. -/
def resolveIfTied (h2h sim_h2h : H2H) (disfavor_id favor_id : Option ℕ)
    (r : ℕ → ℚ) (g : List Team) : List Team :=
  if 1 < g.length then resolve_tiebreaker h2h sim_h2h disfavor_id favor_id r g
  else g

/-- The winner id of one division: head of the (possibly resolved) tied
group of the sorted division. -/
def division_winner_id (teams : List Team) (h2h sim_h2h : H2H)
    (disfavor_id favor_id : Option ℕ) (r : ℕ → ℚ) (did : ℕ) : ℕ :=
  match resolveIfTied h2h sim_h2h disfavor_id favor_id r
    (firstTiedGroup (sortTeamsByPctDesc (divisionTeams teams did))) with
  | t :: _ => t.id
  | [] => 0

/-- The division winners of `determine_playoffs`, in sorted division
order. -/
def division_winners (teams : List Team) (h2h sim_h2h : H2H)
    (disfavor_id favor_id : Option ℕ) (r : ℕ → ℚ) : List ℕ :=
  (divisionIds teams).map
    (division_winner_id teams h2h sim_h2h disfavor_id favor_id r)

/-- Teams not seated as division winners
(`[t for t in teams.values() if t.id not in division_winners]`). -/
def remaining_teams (teams : List Team) (dwIds : List ℕ) : List Team :=
  teams.filter (fun t => !(dwIds.any (fun d => d == t.id)))

/-- The wild-card while loop of `determine_playoffs`: filter the tied
group of the current suffix, resolve it when larger than one, take ids up
to the spots still needed, and advance past the group.  Fuel
`suffix.length` is always sufficient, since each round consumes at least
the leader. -/
def wcLoop (h2h sim_h2h : H2H) (disfavor_id favor_id : Option ℕ)
    (r : ℕ → ℚ) : ℕ → ℕ → List Team → List ℕ
  | 0, _, _ => []
  | _ + 1, needed, [] =>
    if needed = 0 then [] else []
  | fuel + 1, needed, t :: rest =>
    if needed = 0 then []
    else
      ((resolveIfTied h2h sim_h2h disfavor_id favor_id r
          ((t :: rest).filter (fun u => decide (win_pct u = win_pct t)))).map
        Team.id).take needed ++
      wcLoop h2h sim_h2h disfavor_id favor_id r fuel
        (needed - ((t :: rest).filter
          (fun u => decide (win_pct u = win_pct t))).length)
        ((t :: rest).drop
          (((t :: rest).filter
            (fun u => decide (win_pct u = win_pct t))).length))

/-- The wild-card ids of `determine_playoffs`. -/
def dpWildCard (teams : List Team) (h2h sim_h2h : H2H)
    (disfavor_id favor_id : Option ℕ) (r : ℕ → ℚ) (playoff_spots : ℕ) :
    List ℕ :=
  wcLoop h2h sim_h2h disfavor_id favor_id r
    (sortTeamsByPctDesc (remaining_teams teams
      (division_winners teams h2h sim_h2h disfavor_id favor_id r))).length
    (playoff_spots -
      (division_winners teams h2h sim_h2h disfavor_id favor_id r).length)
    (sortTeamsByPctDesc (remaining_teams teams
      (division_winners teams h2h sim_h2h disfavor_id favor_id r)))

/-- `all_playoff_ids = division_winners + wild_card`. -/
def all_playoff_ids (teams : List Team) (h2h sim_h2h : H2H)
    (disfavor_id favor_id : Option ℕ) (r : ℕ → ℚ) (playoff_spots : ℕ) :
    List ℕ :=
  division_winners teams h2h sim_h2h disfavor_id favor_id r ++
    dpWildCard teams h2h sim_h2h disfavor_id favor_id r playoff_spots

/-- The `teams[tid]` dict lookup (ids are unique dict keys). -/
def teamById (teams : List Team) (tid : ℕ) : Team :=
  (teams.find? (fun t => t.id == tid)).getD ⟨0, "", 0, 0, 0, 0, 0, 0, 0⟩

/-- The seeding sort: all playoff ids by win percentage, best first. -/
def seedSort (teams : List Team) (ids : List ℕ) : List ℕ :=
  ids.mergeSort (fun a b =>
    decide (win_pct (teamById teams b) ≤ win_pct (teamById teams a)))

/-- The tie-at-the-top rebuild of `determine_playoffs`: when at least two
teams share the best percentage, resolve that group and put its order
ahead of the rest. -/
def dpRebuild (teams : List Team) (h2h sim_h2h : H2H)
    (disfavor_id favor_id : Option ℕ) (r : ℕ → ℚ) (seeded : List ℕ) :
    List ℕ :=
  if 1 < (seeded.filter (fun tid => decide (win_pct (teamById teams tid) =
      win_pct (teamById teams (seeded.headD 0))))).length then
    ((resolve_tiebreaker h2h sim_h2h disfavor_id favor_id r
        ((seeded.filter (fun tid => decide (win_pct (teamById teams tid) =
          win_pct (teamById teams (seeded.headD 0))))).map
          (teamById teams))).map Team.id) ++
      seeded.filter (fun tid => !(decide (win_pct (teamById teams tid) =
        win_pct (teamById teams (seeded.headD 0)))))
  else seeded

/-- The seeded playoff list of `determine_playoffs` (rebuild only when
there are at least two playoff teams). -/
def dpSeeded (teams : List Team) (h2h sim_h2h : H2H)
    (disfavor_id favor_id : Option ℕ) (r : ℕ → ℚ) (playoff_spots : ℕ) :
    List ℕ :=
  if 2 ≤ (seedSort teams (all_playoff_ids teams h2h sim_h2h disfavor_id
      favor_id r playoff_spots)).length then
    dpRebuild teams h2h sim_h2h disfavor_id favor_id r
      (seedSort teams (all_playoff_ids teams h2h sim_h2h disfavor_id
        favor_id r playoff_spots))
  else seedSort teams (all_playoff_ids teams h2h sim_h2h disfavor_id
    favor_id r playoff_spots)

/-- `determine_playoffs` of `engine.py`: `(playoff ids in seed order,
division winner ids)`. -/
def determine_playoffs (teams : List Team) (h2h sim_h2h : H2H)
    (playoff_spots : ℕ) (disfavor_id favor_id : Option ℕ) (r : ℕ → ℚ) :
    List ℕ × List ℕ :=
  (dpSeeded teams h2h sim_h2h disfavor_id favor_id r playoff_spots,
   division_winners teams h2h sim_h2h disfavor_id favor_id r)

/-- Conditional resolution keeps a permutation of the group. -/
lemma resolveIfTied_perm (h2h sim_h2h : H2H) (disfavor_id favor_id : Option ℕ)
    (r : ℕ → ℚ) (g : List Team) :
    (resolveIfTied h2h sim_h2h disfavor_id favor_id r g).Perm g := by
  unfold resolveIfTied
  split_ifs
  · exact resolve_tiebreaker_perm _ _ _ _ _ _
  · exact List.Perm.refl _

/-- The division ids are distinct. -/
lemma divisionIds_nodup (teams : List Team) : (divisionIds teams).Nodup := by
  unfold divisionIds
  exact (List.mergeSort_perm _ _).symm.nodup (List.nodup_dedup _)

/-- Membership in the division ids is membership among the teams'
division ids. -/
lemma divisionIds_mem {teams : List Team} {d : ℕ} :
    d ∈ divisionIds teams ↔ d ∈ teams.map Team.division_id := by
  unfold divisionIds
  rw [(List.mergeSort_perm _ _).mem_iff]
  exact List.mem_dedup

/-- There are as many division ids as distinct division ids. -/
lemma divisionIds_length (teams : List Team) :
    (divisionIds teams).length = (teams.map Team.division_id).dedup.length :=
  (List.mergeSort_perm _ _).length_eq

/-- The winner of a nonempty division is a member of the division. -/
lemma division_winner_mem {teams : List Team} {h2h sim_h2h : H2H}
    {disfavor_id favor_id : Option ℕ} {r : ℕ → ℚ} {did : ℕ}
    (hne : divisionTeams teams did ≠ []) :
    ∃ t ∈ teams, t.division_id = did ∧
      division_winner_id teams h2h sim_h2h disfavor_id favor_id r did =
        t.id := by
  have hSperm : (sortTeamsByPctDesc (divisionTeams teams did)).Perm
      (divisionTeams teams did) := List.mergeSort_perm _ _
  have hSne : sortTeamsByPctDesc (divisionTeams teams did) ≠ [] := by
    intro hc
    exact hne (List.eq_nil_of_length_eq_zero (by
      rw [← hSperm.length_eq, hc]; rfl))
  rcases hS : sortTeamsByPctDesc (divisionTeams teams did) with _ | ⟨t0, rest⟩
  · exact absurd hS hSne
  · have hgne : firstTiedGroup (sortTeamsByPctDesc (divisionTeams teams did))
        ≠ [] := by
      rw [hS]
      intro hc
      have ht0 : t0 ∈ (t0 :: rest).filter
          (fun u => decide (win_pct u = win_pct t0)) :=
        List.mem_filter.mpr ⟨List.mem_cons_self _ _, by simp⟩
      rw [show firstTiedGroup (t0 :: rest) = (t0 :: rest).filter
          (fun u => decide (win_pct u = win_pct t0)) from rfl] at hc
      rw [hc] at ht0
      simp at ht0
    have hGperm := resolveIfTied_perm h2h sim_h2h disfavor_id favor_id r
      (firstTiedGroup (sortTeamsByPctDesc (divisionTeams teams did)))
    have hGne : resolveIfTied h2h sim_h2h disfavor_id favor_id r
        (firstTiedGroup (sortTeamsByPctDesc (divisionTeams teams did)))
        ≠ [] := by
      intro hc
      exact hgne (List.eq_nil_of_length_eq_zero (by
        rw [← hGperm.length_eq, hc]; rfl))
    rcases hG : resolveIfTied h2h sim_h2h disfavor_id favor_id r
        (firstTiedGroup (sortTeamsByPctDesc (divisionTeams teams did))) with
      _ | ⟨t1, tail⟩
    · exact absurd hG hGne
    · have ht1 : t1 ∈ divisionTeams teams did := by
        have h1 : t1 ∈ resolveIfTied h2h sim_h2h disfavor_id favor_id r
            (firstTiedGroup (sortTeamsByPctDesc (divisionTeams teams did))) := by
          rw [hG]
          exact List.mem_cons_self _ _
        have h2 := hGperm.mem_iff.mp h1
        have h3 : t1 ∈ sortTeamsByPctDesc (divisionTeams teams did) := by
          rw [hS] at h2 ⊢
          exact (List.mem_filter.mp h2).1
        exact hSperm.mem_iff.mp h3
      have hmf := List.mem_filter.mp ht1
      refine ⟨t1, hmf.1, by simpa using hmf.2, ?_⟩
      unfold division_winner_id
      rw [hG]

/-- A division id of the snapshot has a nonempty division. -/
lemma divisionTeams_ne_nil {teams : List Team} {did : ℕ}
    (hd : did ∈ divisionIds teams) : divisionTeams teams did ≠ [] := by
  obtain ⟨t, ht, htd⟩ := List.mem_map.mp (divisionIds_mem.mp hd)
  intro hc
  have : t ∈ divisionTeams teams did :=
    List.mem_filter.mpr ⟨ht, by simp [htd]⟩
  rw [hc] at this
  simp at this

/-- Every division winner id belongs to the snapshot. -/
lemma division_winners_subset {teams : List Team} {h2h sim_h2h : H2H}
    {disfavor_id favor_id : Option ℕ} {r : ℕ → ℚ} :
    ∀ x ∈ division_winners teams h2h sim_h2h disfavor_id favor_id r,
      x ∈ teams.map Team.id := by
  intro x hx
  obtain ⟨did, hdid, hwin⟩ := List.mem_map.mp hx
  obtain ⟨t, ht, _, hid⟩ := @division_winner_mem teams h2h sim_h2h
    disfavor_id favor_id r did (divisionTeams_ne_nil hdid)
  rw [← hwin, hid]
  exact List.mem_map.mpr ⟨t, ht, rfl⟩

/-- With unique team ids, the division winner ids are distinct (winners
of different divisions are different teams). -/
lemma division_winners_nodup {teams : List Team} {h2h sim_h2h : H2H}
    {disfavor_id favor_id : Option ℕ} {r : ℕ → ℚ}
    (hnd : (teams.map Team.id).Nodup) :
    (division_winners teams h2h sim_h2h disfavor_id favor_id r).Nodup := by
  refine List.Nodup.map_on ?_ (divisionIds_nodup teams)
  intro d1 h1 d2 h2 heq
  obtain ⟨t1, ht1, htd1, hid1⟩ := @division_winner_mem teams h2h sim_h2h
    disfavor_id favor_id r d1 (divisionTeams_ne_nil h1)
  obtain ⟨t2, ht2, htd2, hid2⟩ := @division_winner_mem teams h2h sim_h2h
    disfavor_id favor_id r d2 (divisionTeams_ne_nil h2)
  rw [hid1, hid2] at heq
  have := List.inj_on_of_nodup_map hnd ht1 ht2 heq
  rw [← htd1, ← htd2, this]

/-- The number of division winners is the number of distinct divisions. -/
lemma division_winners_length (teams : List Team) (h2h sim_h2h : H2H)
    (disfavor_id favor_id : Option ℕ) (r : ℕ → ℚ) :
    (division_winners teams h2h sim_h2h disfavor_id favor_id r).length =
      (teams.map Team.division_id).dedup.length := by
  unfold division_winners
  rw [List.length_map]
  exact divisionIds_length teams

/-- Splitting a list by a predicate splits its length. -/
lemma length_filter_split {α : Type} (l : List α) (p : α → Bool) :
    (l.filter p).length + (l.filter (fun t => !(p t))).length = l.length := by
  have h := (List.filter_append_perm p l).length_eq
  rw [List.length_append] at h
  exact h

/-- With unique ids, filtering the snapshot by membership of the id in a
distinct id list contained in the snapshot keeps exactly that many
teams. -/
lemma length_filter_by_ids {teams : List Team} {ids : List ℕ}
    (hnd : (teams.map Team.id).Nodup) (hids : ids.Nodup)
    (hsub : ∀ x ∈ ids, x ∈ teams.map Team.id) :
    (teams.filter (fun t => ids.any (fun d => d == t.id))).length =
      ids.length := by
  have hperm : ((teams.filter (fun t =>
      ids.any (fun d => d == t.id))).map Team.id).Perm ids := by
    rw [List.perm_ext_iff_of_nodup
      (List.Nodup.sublist ((List.filter_sublist teams).map Team.id) hnd) hids]
    intro a
    constructor
    · intro ha
      obtain ⟨t, ht, rfl⟩ := List.mem_map.mp ha
      have hmf := List.mem_filter.mp ht
      obtain ⟨d, hd, hdt⟩ := List.any_eq_true.mp hmf.2
      rw [← show d = t.id from by simpa using hdt]
      exact hd
    · intro ha
      obtain ⟨t, ht, rfl⟩ := List.mem_map.mp (hsub a ha)
      refine List.mem_map.mpr ⟨t, List.mem_filter.mpr ⟨ht, ?_⟩, rfl⟩
      exact List.any_eq_true.mpr ⟨t.id, ha, by simp⟩
  have := hperm.length_eq
  rw [List.length_map] at this
  exact this

/-- The length of the remaining (non-winner) team list. -/
lemma remaining_teams_length {teams : List Team} {ids : List ℕ}
    (hnd : (teams.map Team.id).Nodup) (hids : ids.Nodup)
    (hsub : ∀ x ∈ ids, x ∈ teams.map Team.id) :
    (remaining_teams teams ids).length = teams.length - ids.length := by
  have hsplit := length_filter_split teams (fun t => ids.any (fun d => d == t.id))
  have hp := length_filter_by_ids hnd hids hsub
  unfold remaining_teams
  omega

/-- Length of the wild-card loop output: spots still needed, capped by
the candidates available. -/
lemma wcLoop_length (h2h sim_h2h : H2H) (disfavor_id favor_id : Option ℕ)
    (r : ℕ → ℚ) :
    ∀ (fuel needed : ℕ) (l : List Team), l.length ≤ fuel →
      (wcLoop h2h sim_h2h disfavor_id favor_id r fuel needed l).length =
        min needed l.length := by
  intro fuel
  induction fuel with
  | zero =>
    intro needed l hlen
    have : l = [] := List.eq_nil_of_length_eq_zero (Nat.le_zero.mp hlen)
    subst this
    simp [wcLoop]
  | succ fuel ih =>
    intro needed l hlen
    match l with
    | [] => simp [wcLoop]
    | t :: rest =>
      by_cases hz : needed = 0
      · subst hz
        simp [wcLoop]
      · rw [wcLoop, if_neg hz]
        have hg1 : 1 ≤ ((t :: rest).filter
            (fun u => decide (win_pct u = win_pct t))).length := by
          refine List.length_pos.mpr ?_
          intro hc
          have ht : t ∈ (t :: rest).filter
              (fun u => decide (win_pct u = win_pct t)) :=
            List.mem_filter.mpr ⟨List.mem_cons_self _ _, by simp⟩
          rw [hc] at ht
          simp at ht
        have hgle : ((t :: rest).filter
            (fun u => decide (win_pct u = win_pct t))).length ≤
            (t :: rest).length := List.length_filter_le _ _
        have hrlen : ((t :: rest).drop
            (((t :: rest).filter
              (fun u => decide (win_pct u = win_pct t))).length)).length =
            (t :: rest).length - ((t :: rest).filter
              (fun u => decide (win_pct u = win_pct t))).length :=
          List.length_drop _ _
        have hih := ih (needed - ((t :: rest).filter
            (fun u => decide (win_pct u = win_pct t))).length)
          ((t :: rest).drop (((t :: rest).filter
            (fun u => decide (win_pct u = win_pct t))).length))
          (by
            rw [hrlen]
            simp only [List.length_cons] at hlen ⊢
            omega)
        rw [List.length_append, List.length_take, List.length_map,
          (resolveIfTied_perm h2h sim_h2h disfavor_id favor_id r _).length_eq,
          hih, hrlen]
        simp only [List.length_cons] at hlen hgle ⊢
        omega

/-- Every wild-card id comes from a candidate team. -/
lemma wcLoop_subset (h2h sim_h2h : H2H) (disfavor_id favor_id : Option ℕ)
    (r : ℕ → ℚ) :
    ∀ (fuel needed : ℕ) (l : List Team),
      ∀ x ∈ wcLoop h2h sim_h2h disfavor_id favor_id r fuel needed l,
        ∃ t ∈ l, t.id = x := by
  intro fuel
  induction fuel with
  | zero =>
    intro needed l x hx
    simp [wcLoop] at hx
  | succ fuel ih =>
    intro needed l x hx
    match l with
    | [] =>
      rw [wcLoop] at hx
      split_ifs at hx <;> simp at hx
    | t :: rest =>
      rw [wcLoop] at hx
      split_ifs at hx with hz
      · simp at hx
      · rcases List.mem_append.mp hx with h | h
        · have h1 := List.take_subset _ _ h
          obtain ⟨u, hu, rfl⟩ := List.mem_map.mp h1
          have h2 := (resolveIfTied_perm h2h sim_h2h disfavor_id favor_id
            r _).mem_iff.mp hu
          exact ⟨u, (List.mem_filter.mp h2).1, rfl⟩
        · obtain ⟨u, hu, rfl⟩ := ih _ _ x h
          exact ⟨u, List.drop_subset _ _ hu, rfl⟩

/-- The dict lookup by an id present in the snapshot returns a team with
that id. -/
lemma teamById_id {teams : List Team} {tid : ℕ}
    (h : tid ∈ teams.map Team.id) : (teamById teams tid).id = tid := by
  obtain ⟨t, ht, rfl⟩ := List.mem_map.mp h
  unfold teamById
  rcases hf : teams.find? (fun u => u.id == t.id) with _ | u
  · rw [List.find?_eq_none] at hf
    exact absurd (by simp) (hf t ht)
  · rw [hf, Option.getD_some]
    simpa using List.find?_some hf

/-- The tie-at-the-top rebuild preserves the number of playoff teams. -/
lemma dpRebuild_length (teams : List Team) (h2h sim_h2h : H2H)
    (disfavor_id favor_id : Option ℕ) (r : ℕ → ℚ) (seeded : List ℕ) :
    (dpRebuild teams h2h sim_h2h disfavor_id favor_id r seeded).length =
      seeded.length := by
  unfold dpRebuild
  split_ifs with h
  · rw [List.length_append, List.length_map,
      (resolve_tiebreaker_perm _ _ _ _ _ _).length_eq, List.length_map]
    exact length_filter_split seeded _
  · rfl

/-- The tie-at-the-top rebuild keeps only ids already seeded. -/
lemma dpRebuild_subset {teams : List Team} {h2h sim_h2h : H2H}
    {disfavor_id favor_id : Option ℕ} {r : ℕ → ℚ} {seeded : List ℕ}
    (hsub : ∀ tid ∈ seeded, tid ∈ teams.map Team.id) :
    ∀ x ∈ dpRebuild teams h2h sim_h2h disfavor_id favor_id r seeded,
      x ∈ seeded := by
  intro x hx
  unfold dpRebuild at hx
  split_ifs at hx with h
  · rcases List.mem_append.mp hx with h1 | h1
    · obtain ⟨u, hu, rfl⟩ := List.mem_map.mp h1
      have h2 := (resolve_tiebreaker_perm h2h sim_h2h disfavor_id favor_id
        r _).mem_iff.mp hu
      obtain ⟨tid, htid, rfl⟩ := List.mem_map.mp h2
      have htid2 : tid ∈ seeded := (List.mem_filter.mp htid).1
      rw [teamById_id (hsub tid htid2)]
      exact htid2
    · exact (List.mem_filter.mp h1).1
  · exact hx

/-- The seeded playoff list has the same length as the raw playoff
list. -/
lemma dpSeeded_length (teams : List Team) (h2h sim_h2h : H2H)
    (disfavor_id favor_id : Option ℕ) (r : ℕ → ℚ) (playoff_spots : ℕ) :
    (dpSeeded teams h2h sim_h2h disfavor_id favor_id r playoff_spots).length =
      (all_playoff_ids teams h2h sim_h2h disfavor_id favor_id r
        playoff_spots).length := by
  unfold dpSeeded
  split_ifs with h
  · rw [dpRebuild_length]
    exact (List.mergeSort_perm _ _).length_eq
  · exact (List.mergeSort_perm _ _).length_eq

/-- Every id of the wild-card list belongs to the snapshot. -/
lemma dpWildCard_subset {teams : List Team} {h2h sim_h2h : H2H}
    {disfavor_id favor_id : Option ℕ} {r : ℕ → ℚ} {playoff_spots : ℕ} :
    ∀ x ∈ dpWildCard teams h2h sim_h2h disfavor_id favor_id r playoff_spots,
      x ∈ teams.map Team.id := by
  intro x hx
  obtain ⟨t, ht, rfl⟩ := wcLoop_subset h2h sim_h2h disfavor_id favor_id r
    _ _ _ x hx
  have h1 : t ∈ remaining_teams teams
      (division_winners teams h2h sim_h2h disfavor_id favor_id r) :=
    (List.mergeSort_perm _ _).mem_iff.mp ht
  exact List.mem_map.mpr ⟨t, (List.mem_filter.mp h1).1, rfl⟩

/-- Every id of the raw playoff list belongs to the snapshot. -/
lemma all_playoff_ids_subset {teams : List Team} {h2h sim_h2h : H2H}
    {disfavor_id favor_id : Option ℕ} {r : ℕ → ℚ} {playoff_spots : ℕ} :
    ∀ x ∈ all_playoff_ids teams h2h sim_h2h disfavor_id favor_id r
      playoff_spots, x ∈ teams.map Team.id := by
  intro x hx
  rcases List.mem_append.mp hx with h | h
  · exact division_winners_subset x h
  · exact dpWildCard_subset x h

/-- Every id of the final seeded playoff list belongs to the snapshot. -/
lemma determine_playoffs_subset {teams : List Team} {h2h sim_h2h : H2H}
    {playoff_spots : ℕ} {disfavor_id favor_id : Option ℕ} {r : ℕ → ℚ} :
    ∀ x ∈ (determine_playoffs teams h2h sim_h2h playoff_spots disfavor_id
      favor_id r).1, x ∈ teams.map Team.id := by
  intro x hx
  have hseed : ∀ tid ∈ seedSort teams (all_playoff_ids teams h2h sim_h2h
      disfavor_id favor_id r playoff_spots), tid ∈ teams.map Team.id := by
    intro tid htid
    exact all_playoff_ids_subset tid ((List.mergeSort_perm _ _).mem_iff.mp htid)
  have hx2 : x ∈ dpSeeded teams h2h sim_h2h disfavor_id favor_id r
      playoff_spots := hx
  unfold dpSeeded at hx2
  split_ifs at hx2 with h
  · exact hseed x (dpRebuild_subset hseed x hx2)
  · exact hseed x hx2

/-- `determine_playoffs` returns exactly `playoff_spots` playoff teams
for every valid snapshot: unique team ids, no more divisions than spots,
and at least `playoff_spots` teams. -/
theorem determine_playoffs_length (teams : List Team) (h2h sim_h2h : H2H)
    (playoff_spots : ℕ) (disfavor_id favor_id : Option ℕ) (r : ℕ → ℚ)
    (hnd : (teams.map Team.id).Nodup)
    (hdiv : (teams.map Team.division_id).dedup.length ≤ playoff_spots)
    (hspots : playoff_spots ≤ teams.length) :
    (determine_playoffs teams h2h sim_h2h playoff_spots disfavor_id favor_id
      r).1.length = playoff_spots := by
  have hdw_len := division_winners_length teams h2h sim_h2h disfavor_id
    favor_id r
  have hdw_nodup := @division_winners_nodup teams h2h sim_h2h disfavor_id
    favor_id r hnd
  have hdw_sub := @division_winners_subset teams h2h sim_h2h disfavor_id
    favor_id r
  have hrem := remaining_teams_length hnd hdw_nodup hdw_sub
  have hsorted : (sortTeamsByPctDesc (remaining_teams teams
      (division_winners teams h2h sim_h2h disfavor_id favor_id r))).length =
      (remaining_teams teams
        (division_winners teams h2h sim_h2h disfavor_id favor_id r)).length :=
    (List.mergeSort_perm _ _).length_eq
  have hwc : (dpWildCard teams h2h sim_h2h disfavor_id favor_id r
      playoff_spots).length =
      min (playoff_spots -
        (division_winners teams h2h sim_h2h disfavor_id favor_id r).length)
        (sortTeamsByPctDesc (remaining_teams teams
          (division_winners teams h2h sim_h2h disfavor_id favor_id
            r))).length := by
    unfold dpWildCard
    exact wcLoop_length h2h sim_h2h disfavor_id favor_id r _ _ _ (le_refl _)
  show (dpSeeded teams h2h sim_h2h disfavor_id favor_id r
    playoff_spots).length = playoff_spots
  rw [dpSeeded_length]
  unfold all_playoff_ids
  rw [List.length_append, hwc, hsorted, hrem, hdw_len]
  omega

/-- `SimulationResult` (models.py): per-team Monte Carlo counters. -/
structure SimulationResult where
  team_id : ℕ
  division_wins : ℕ
  playoff_appearances : ℕ
  first_seed : ℕ
  last_place : ℕ
deriving DecidableEq

/-- `results = {team_id: SimulationResult(team_id=team_id) for team_id in
teams}`: every counter starts at zero. -/
def initResults : ℕ → SimulationResult :=
  fun tid => ⟨tid, 0, 0, 0, 0⟩

/-- `sim_teams[winner_id].wins += 1` (and the division counter when the
matchup is a division game), applied to the team keyed by `winner`. -/
def apply_outcome_win (ts : List Team) (winner : ℕ) (is_division : Bool) :
    List Team :=
  ts.map (fun t => if t.id = winner then
    { t with wins := t.wins + 1,
             division_wins :=
               if is_division then t.division_wins + 1 else t.division_wins }
    else t)

/-- `sim_teams[loser_id].losses += 1` (and the division counter when the
matchup is a division game), applied to the team keyed by `loser`. -/
def apply_outcome_loss (ts : List Team) (loser : ℕ) (is_division : Bool) :
    List Team :=
  ts.map (fun t => if t.id = loser then
    { t with losses := t.losses + 1,
             division_losses :=
               if is_division then t.division_losses + 1
               else t.division_losses }
    else t)

/-- `winner_id = random.choice([home, away])`: the injected boolean decides
home (true) or away (false). -/
def matchup_winner (m : Matchup) (home_wins : Bool) : ℕ :=
  if home_wins then m.home_team_id else m.away_team_id

/-- `loser_id = away if winner_id == home else home`. -/
def matchup_loser (m : Matchup) (home_wins : Bool) : ℕ :=
  if matchup_winner m home_wins = m.home_team_id then m.away_team_id
  else m.home_team_id

/-- One matchup's record updates inside the simulation loop. -/
def simMatchup (ts : List Team) (m : Matchup) (home_wins : Bool) :
    List Team :=
  apply_outcome_loss
    (apply_outcome_win ts (matchup_winner m home_wins) m.is_division_game)
    (matchup_loser m home_wins) m.is_division_game

/-- `sim_h2h[key][0] += 1` / `sim_h2h[key][1] += 1` on the defaultdict with
key `(min winner, max winner)`. -/
def h2hAdd (s : H2H) (winner loser : ℕ) : H2H :=
  fun k => if k = (min winner loser, max winner loser) then
    (if winner < loser then ((s k).1 + 1, (s k).2.1, (s k).2.2)
     else ((s k).1, (s k).2.1 + 1, (s k).2.2))
  else s k

/-- One iteration of `for matchup in remaining`: update standings and the
simulated H2H dict. -/
def simStep (coin : ℕ → Bool) (st : List Team × H2H) (km : ℕ × Matchup) :
    List Team × H2H :=
  (simMatchup st.1 km.2 (coin km.1),
   h2hAdd st.2 (matchup_winner km.2 (coin km.1))
     (matchup_loser km.2 (coin km.1)))

/-- The state after simulating all remaining matchups of one trial. -/
def trialState (teams : List Team) (remaining : List Matchup)
    (coin : ℕ → Bool) : List Team × H2H :=
  remaining.enum.foldl (simStep coin) (teams, fun _ => (0, 0, 0))

/-- `results[team_id].division_wins += 1`. -/
def bumpDiv (res : ℕ → SimulationResult) (tid : ℕ) : ℕ → SimulationResult :=
  fun k => if k = tid then
    { res k with division_wins := (res k).division_wins + 1 }
  else res k

/-- `results[team_id].playoff_appearances += 1`. -/
def bumpPlayoff (res : ℕ → SimulationResult) (tid : ℕ) :
    ℕ → SimulationResult :=
  fun k => if k = tid then
    { res k with playoff_appearances := (res k).playoff_appearances + 1 }
  else res k

/-- `results[playoff_teams[0]].first_seed += 1`. -/
def bumpFirst (res : ℕ → SimulationResult) (tid : ℕ) :
    ℕ → SimulationResult :=
  fun k => if k = tid then
    { res k with first_seed := (res k).first_seed + 1 }
  else res k

/-- `results[last_place_team.id].last_place += 1`. -/
def bumpLast (res : ℕ → SimulationResult) (tid : ℕ) :
    ℕ → SimulationResult :=
  fun k => if k = tid then
    { res k with last_place := (res k).last_place + 1 }
  else res k

/-- `for team_id in division_winners: results[team_id].division_wins += 1`. -/
def recordDivisionWinners (res : ℕ → SimulationResult) (dw : List ℕ) :
    ℕ → SimulationResult :=
  dw.foldl bumpDiv res

/-- `for team_id in playoff_teams: results[team_id].playoff_appearances += 1`. -/
def recordPlayoffs (res : ℕ → SimulationResult) (pids : List ℕ) :
    ℕ → SimulationResult :=
  pids.foldl bumpPlayoff res

/-- `if playoff_teams: results[playoff_teams[0]].first_seed += 1`. -/
def recordFirstSeed (res : ℕ → SimulationResult) (pids : List ℕ) :
    ℕ → SimulationResult :=
  match pids with
  | [] => res
  | p :: _ => bumpFirst res p

/-- `worst_pct = min(t.win_pct for t in all_teams)`. -/
def worst_pct (ts : List Team) : ℚ :=
  listMin (ts.map win_pct)

/-- `tied_for_last = [t for t in all_teams if t.win_pct == worst_pct]`. -/
def tied_for_last (ts : List Team) : List Team :=
  ts.filter (fun t => decide (win_pct t = worst_pct ts))

/-- The id charged with last place: the tiebreaker's last entry when
several teams share the worst record, else the single worst team. -/
def last_place_id (ts : List Team) (h2h sim_h2h : H2H) (r : ℕ → ℚ) : ℕ :=
  if 1 < (tied_for_last ts).length then
    match (resolve_tiebreaker h2h sim_h2h none none r
      (tied_for_last ts)).getLast? with
    | some t => t.id
    | none => 0
  else
    match tied_for_last ts with
    | t :: _ => t.id
    | [] => 0

/-- One iteration of `for sim_idx in range(n_simulations)`: simulate the
remaining matchups, determine the playoff field, and update all four
counters. -/
def runTrial (teams : List Team) (remaining : List Matchup) (h2h : H2H)
    (playoff_spots : ℕ) (coin : ℕ → Bool) (r : ℕ → ℚ)
    (res : ℕ → SimulationResult) : ℕ → SimulationResult :=
  bumpLast
    (recordFirstSeed
      (recordPlayoffs
        (recordDivisionWinners res
          (determine_playoffs (trialState teams remaining coin).1 h2h
            (trialState teams remaining coin).2 playoff_spots none none r).2)
        (determine_playoffs (trialState teams remaining coin).1 h2h
          (trialState teams remaining coin).2 playoff_spots none none r).1)
      (determine_playoffs (trialState teams remaining coin).1 h2h
        (trialState teams remaining coin).2 playoff_spots none none r).1)
    (last_place_id (trialState teams remaining coin).1 h2h
      (trialState teams remaining coin).2 r)

/-- `simulate_season` (engine.py): run `n_simulations` independent trials,
with the trial's coin flips and tiebreaker randomness injected as
functions of the trial index. -/
def simulate_season (teams : List Team) (remaining : List Matchup)
    (h2h : H2H) (n_simulations playoff_spots : ℕ) (coin : ℕ → ℕ → Bool)
    (r : ℕ → ℕ → ℚ) : ℕ → SimulationResult :=
  (List.range n_simulations).foldl
    (fun res i => runTrial teams remaining h2h playoff_spots (coin i) (r i)
      res)
    initResults

/-- The spec's aggregate: total playoff appearances over the snapshot's
teams. -/
def sumAppearances (teams : List Team) (res : ℕ → SimulationResult) : ℕ :=
  (teams.map (fun t => (res t.id).playoff_appearances)).sum

/-- Crediting a win never changes the ids of the standings. -/
lemma apply_outcome_win_map_id (ts : List Team) (w : ℕ) (d : Bool) :
    (apply_outcome_win ts w d).map Team.id = ts.map Team.id := by
  unfold apply_outcome_win
  rw [List.map_map]
  apply List.map_congr_left
  intro t _
  by_cases h : t.id = w <;> simp [Function.comp, h]

/-- Crediting a loss never changes the ids of the standings. -/
lemma apply_outcome_loss_map_id (ts : List Team) (l : ℕ) (d : Bool) :
    (apply_outcome_loss ts l d).map Team.id = ts.map Team.id := by
  unfold apply_outcome_loss
  rw [List.map_map]
  apply List.map_congr_left
  intro t _
  by_cases h : t.id = l <;> simp [Function.comp, h]

/-- Crediting a win never changes the division ids of the standings. -/
lemma apply_outcome_win_map_div (ts : List Team) (w : ℕ) (d : Bool) :
    (apply_outcome_win ts w d).map Team.division_id =
      ts.map Team.division_id := by
  unfold apply_outcome_win
  rw [List.map_map]
  apply List.map_congr_left
  intro t _
  by_cases h : t.id = w <;> simp [Function.comp, h]

/-- Crediting a loss never changes the division ids of the standings. -/
lemma apply_outcome_loss_map_div (ts : List Team) (l : ℕ) (d : Bool) :
    (apply_outcome_loss ts l d).map Team.division_id =
      ts.map Team.division_id := by
  unfold apply_outcome_loss
  rw [List.map_map]
  apply List.map_congr_left
  intro t _
  by_cases h : t.id = l <;> simp [Function.comp, h]

/-- Simulating one matchup never changes the ids of the standings. -/
lemma simMatchup_map_id (ts : List Team) (m : Matchup) (b : Bool) :
    (simMatchup ts m b).map Team.id = ts.map Team.id := by
  unfold simMatchup
  rw [apply_outcome_loss_map_id, apply_outcome_win_map_id]

/-- Simulating one matchup never changes the division ids. -/
lemma simMatchup_map_div (ts : List Team) (m : Matchup) (b : Bool) :
    (simMatchup ts m b).map Team.division_id = ts.map Team.division_id := by
  unfold simMatchup
  rw [apply_outcome_loss_map_div, apply_outcome_win_map_div]

/-- Folding the matchup loop never changes the ids of the standings. -/
lemma foldl_simStep_map_id (coin : ℕ → Bool) :
    ∀ (l : List (ℕ × Matchup)) (ts : List Team) (s : H2H),
      ((l.foldl (simStep coin) (ts, s)).1).map Team.id = ts.map Team.id := by
  intro l
  induction l with
  | nil => intro ts s; rfl
  | cons km rest ih =>
    intro ts s
    rw [List.foldl_cons]
    exact (ih _ _).trans (simMatchup_map_id _ _ _)

/-- Folding the matchup loop never changes the division ids. -/
lemma foldl_simStep_map_div (coin : ℕ → Bool) :
    ∀ (l : List (ℕ × Matchup)) (ts : List Team) (s : H2H),
      ((l.foldl (simStep coin) (ts, s)).1).map Team.division_id =
        ts.map Team.division_id := by
  intro l
  induction l with
  | nil => intro ts s; rfl
  | cons km rest ih =>
    intro ts s
    rw [List.foldl_cons]
    exact (ih _ _).trans (simMatchup_map_div _ _ _)

/-- A trial's simulated standings keep the snapshot's ids. -/
lemma trialState_map_id (teams : List Team) (remaining : List Matchup)
    (coin : ℕ → Bool) :
    ((trialState teams remaining coin).1).map Team.id = teams.map Team.id :=
  foldl_simStep_map_id coin _ teams _

/-- A trial's simulated standings keep the snapshot's division ids. -/
lemma trialState_map_div (teams : List Team) (remaining : List Matchup)
    (coin : ℕ → Bool) :
    ((trialState teams remaining coin).1).map Team.division_id =
      teams.map Team.division_id :=
  foldl_simStep_map_div coin _ teams _

/-- Two result tables with the same appearance counts sum alike. -/
lemma sumApp_eq_of_app_eq (teams : List Team)
    (res res' : ℕ → SimulationResult)
    (h : ∀ tid, (res' tid).playoff_appearances =
      (res tid).playoff_appearances) :
    sumAppearances teams res' = sumAppearances teams res := by
  unfold sumAppearances
  congr 1
  apply List.map_congr_left
  intro t _
  exact h t.id

/-- Counting a division win leaves playoff appearances alone. -/
lemma bumpDiv_app (res : ℕ → SimulationResult) (tid k : ℕ) :
    (bumpDiv res tid k).playoff_appearances =
      (res k).playoff_appearances := by
  unfold bumpDiv
  split_ifs <;> rfl

/-- Counting a first seed leaves playoff appearances alone. -/
lemma bumpFirst_app (res : ℕ → SimulationResult) (tid k : ℕ) :
    (bumpFirst res tid k).playoff_appearances =
      (res k).playoff_appearances := by
  unfold bumpFirst
  split_ifs <;> rfl

/-- Counting a last place leaves playoff appearances alone. -/
lemma bumpLast_app (res : ℕ → SimulationResult) (tid k : ℕ) :
    (bumpLast res tid k).playoff_appearances =
      (res k).playoff_appearances := by
  unfold bumpLast
  split_ifs <;> rfl

/-- Recording division winners does not change the appearance total. -/
lemma sumApp_recordDivisionWinners (teams : List Team)
    (dw : List ℕ) : ∀ res : ℕ → SimulationResult,
    sumAppearances teams (recordDivisionWinners res dw) =
      sumAppearances teams res := by
  induction dw with
  | nil => intro res; rfl
  | cons d ds ih =>
    intro res
    unfold recordDivisionWinners at ih ⊢
    rw [List.foldl_cons, ih]
    exact sumApp_eq_of_app_eq _ _ _ (fun tid => bumpDiv_app res d tid)

/-- Recording the first seed does not change the appearance total. -/
lemma sumApp_recordFirstSeed (teams : List Team)
    (res : ℕ → SimulationResult) (pids : List ℕ) :
    sumAppearances teams (recordFirstSeed res pids) =
      sumAppearances teams res := by
  match pids with
  | [] => rfl
  | p :: _ =>
    exact sumApp_eq_of_app_eq _ _ _ (fun tid => bumpFirst_app res p tid)

/-- Recording last place does not change the appearance total. -/
lemma sumApp_bumpLast (teams : List Team) (res : ℕ → SimulationResult)
    (tid : ℕ) :
    sumAppearances teams (bumpLast res tid) = sumAppearances teams res :=
  sumApp_eq_of_app_eq _ _ _ (fun k => bumpLast_app res tid k)

/-- Bumping an id outside the snapshot leaves the total alone. -/
lemma sumApp_bumpPlayoff_not_mem {teams : List Team} {tid : ℕ}
    (res : ℕ → SimulationResult) (h : tid ∉ teams.map Team.id) :
    sumAppearances teams (bumpPlayoff res tid) = sumAppearances teams res := by
  unfold sumAppearances
  congr 1
  apply List.map_congr_left
  intro t ht
  have hne : t.id ≠ tid := fun he => h (he ▸ List.mem_map.mpr ⟨t, ht, rfl⟩)
  simp only [bumpPlayoff]
  rw [if_neg hne]

/-- Bumping a snapshot id adds exactly one appearance to the total. -/
lemma sumApp_bumpPlayoff_mem {teams : List Team} {tid : ℕ}
    (res : ℕ → SimulationResult) (hnd : (teams.map Team.id).Nodup)
    (h : tid ∈ teams.map Team.id) :
    sumAppearances teams (bumpPlayoff res tid) =
      sumAppearances teams res + 1 := by
  induction teams with
  | nil => simp at h
  | cons t ts ih =>
    rw [List.map_cons, List.nodup_cons] at hnd
    unfold sumAppearances
    rw [List.map_cons, List.map_cons, List.sum_cons, List.sum_cons]
    by_cases he : t.id = tid
    · have h1 : (bumpPlayoff res tid t.id).playoff_appearances =
          (res t.id).playoff_appearances + 1 := by
        simp only [bumpPlayoff]
        rw [if_pos he]
      have h2 : tid ∉ ts.map Team.id := he ▸ hnd.1
      have h3 := @sumApp_bumpPlayoff_not_mem ts tid res h2
      unfold sumAppearances at h3
      rw [h1, h3]
      omega
    · have h1 : (bumpPlayoff res tid t.id).playoff_appearances =
          (res t.id).playoff_appearances := by
        simp only [bumpPlayoff]
        rw [if_neg he]
      have h4 : tid ∈ ts.map Team.id := by
        have h5 := h
        rw [List.map_cons, List.mem_cons] at h5
        rcases h5 with h5 | h5
        · exact absurd h5.symm he
        · exact h5
      have h6 := ih hnd.2 h4
      unfold sumAppearances at h6
      rw [h1, h6]
      omega

/-- Recording the playoff list adds its length to the appearance total,
provided every listed id belongs to the snapshot. -/
lemma sumApp_recordPlayoffs {teams : List Team} {pids : List ℕ}
    (hnd : (teams.map Team.id).Nodup)
    (hsub : ∀ x ∈ pids, x ∈ teams.map Team.id) :
    ∀ res : ℕ → SimulationResult,
      sumAppearances teams (recordPlayoffs res pids) =
        sumAppearances teams res + pids.length := by
  induction pids with
  | nil => intro res; rfl
  | cons p ps ih =>
    intro res
    unfold recordPlayoffs at ih ⊢
    rw [List.foldl_cons,
      ih (fun x hx => hsub x (List.mem_cons_of_mem _ hx)),
      sumApp_bumpPlayoff_mem res hnd (hsub p (List.mem_cons_self _ _)),
      List.length_cons]
    omega

/-- One trial adds exactly `playoff_spots` to the appearance total. -/
lemma runTrial_sum (teams : List Team) (remaining : List Matchup)
    (h2h : H2H) (playoff_spots : ℕ) (coin : ℕ → Bool) (r : ℕ → ℚ)
    (res : ℕ → SimulationResult)
    (hnd : (teams.map Team.id).Nodup)
    (hdiv : (teams.map Team.division_id).dedup.length ≤ playoff_spots)
    (hspots : playoff_spots ≤ teams.length) :
    sumAppearances teams
      (runTrial teams remaining h2h playoff_spots coin r res) =
      sumAppearances teams res + playoff_spots := by
  have hid := trialState_map_id teams remaining coin
  have hdv := trialState_map_div teams remaining coin
  have hnd' : (((trialState teams remaining coin).1).map Team.id).Nodup :=
    hid ▸ hnd
  have hdiv' : (((trialState teams remaining coin).1).map
      Team.division_id).dedup.length ≤ playoff_spots := by
    rw [hdv]; exact hdiv
  have hlen : (trialState teams remaining coin).1.length = teams.length := by
    have h := congrArg List.length hid
    simpa using h
  have hspots' : playoff_spots ≤ (trialState teams remaining coin).1.length :=
    by rw [hlen]; exact hspots
  have hplen := determine_playoffs_length ((trialState teams remaining
    coin).1) h2h ((trialState teams remaining coin).2) playoff_spots none
    none r hnd' hdiv' hspots'
  have hsub : ∀ x ∈ (determine_playoffs ((trialState teams remaining
      coin).1) h2h ((trialState teams remaining coin).2) playoff_spots none
      none r).1, x ∈ teams.map Team.id := by
    intro x hx
    have h := determine_playoffs_subset x hx
    rw [hid] at h
    exact h
  unfold runTrial
  rw [sumApp_bumpLast, sumApp_recordFirstSeed,
    sumApp_recordPlayoffs hnd hsub, sumApp_recordDivisionWinners, hplen]

/-- The trial loop adds `playoff_spots` per iteration. -/
lemma foldl_runTrial_sum (teams : List Team) (remaining : List Matchup)
    (h2h : H2H) (playoff_spots : ℕ) (coin : ℕ → ℕ → Bool) (r : ℕ → ℕ → ℚ)
    (hnd : (teams.map Team.id).Nodup)
    (hdiv : (teams.map Team.division_id).dedup.length ≤ playoff_spots)
    (hspots : playoff_spots ≤ teams.length) :
    ∀ (l : List ℕ) (res : ℕ → SimulationResult),
      sumAppearances teams
        (l.foldl (fun res i => runTrial teams remaining h2h playoff_spots
          (coin i) (r i) res) res) =
        sumAppearances teams res + l.length * playoff_spots := by
  intro l
  induction l with
  | nil => intro res; simp
  | cons i is ih =>
    intro res
    rw [List.foldl_cons, ih,
      runTrial_sum teams remaining h2h playoff_spots (coin i) (r i) res hnd
        hdiv hspots, List.length_cons]
    ring

/-- Before any trial every appearance counter is zero. -/
lemma sumApp_init (teams : List Team) :
    sumAppearances teams initResults = 0 := by
  unfold sumAppearances initResults
  simp

/-- A one-team snapshot with the default six playoff spots: the playoff
list has length 1, not `playoff_spots`, so the claim's unconditional
"every snapshot" reading fails. -/
theorem c1_counterexample :
    (determine_playoffs [⟨1, "A", 0, 0, 0, 0, 0, 0, 0⟩] (fun _ => (0, 0, 0))
      (fun _ => (0, 0, 0)) 6 none none (fun _ => 0)).1.length ≠ 6 := by
  norm_num [determine_playoffs, dpSeeded, dpRebuild, seedSort,
    all_playoff_ids, dpWildCard, wcLoop, sortTeamsByPctDesc,
    remaining_teams, division_winners, division_winner_id, divisionIds,
    divisionTeams, firstTiedGroup, resolveIfTied, win_pct, teamById,
    List.mergeSort, List.merge, List.dedup, List.filter_cons]

/-- C1 (amended): for every valid snapshot — unique team ids, no more
divisions than playoff spots, and at least `playoff_spots` teams — every
call of `determine_playoffs` returns a playoff list of length exactly
`playoff_spots`, and after `simulate_season` with `n_simulations` trials
the sum over the snapshot's teams of `playoff_appearances` equals
`n_simulations * playoff_spots`, for every draw of the coin flips and of
the tiebreaker randomness. -/
theorem c1_playoff_appearances (teams : List Team) (remaining : List Matchup)
    (h2h : H2H) (n_simulations playoff_spots : ℕ)
    (coin : ℕ → ℕ → Bool) (r : ℕ → ℕ → ℚ)
    (hnd : (teams.map Team.id).Nodup)
    (hdiv : (teams.map Team.division_id).dedup.length ≤ playoff_spots)
    (hspots : playoff_spots ≤ teams.length) :
    (∀ (sim_h2h : H2H) (disfavor_id favor_id : Option ℕ) (rr : ℕ → ℚ),
      (determine_playoffs teams h2h sim_h2h playoff_spots disfavor_id
        favor_id rr).1.length = playoff_spots) ∧
    sumAppearances teams
      (simulate_season teams remaining h2h n_simulations playoff_spots coin
        r) = n_simulations * playoff_spots := by
  constructor
  · intro sim_h2h disfavor_id favor_id rr
    exact determine_playoffs_length teams h2h sim_h2h playoff_spots
      disfavor_id favor_id rr hnd hdiv hspots
  · unfold simulate_season
    rw [foldl_runTrial_sum teams remaining h2h playoff_spots coin r hnd hdiv
      hspots, sumApp_init, List.length_range]
    omega

/-- C1 witness: a two-team, two-division snapshot with two playoff
spots satisfies the hypotheses, so one trial with no remaining matchups
yields an appearance total of `1 * 2`. -/
theorem c1_playoff_appearances_witness :
    ((([⟨1, "A", 0, 0, 0, 0, 0, 0, 0⟩, ⟨2, "B", 1, 0, 0, 0, 0, 0, 0⟩] :
        List Team).map Team.id).Nodup ∧
      (([⟨1, "A", 0, 0, 0, 0, 0, 0, 0⟩, ⟨2, "B", 1, 0, 0, 0, 0, 0, 0⟩] :
        List Team).map Team.division_id).dedup.length ≤ 2 ∧
      2 ≤ ([⟨1, "A", 0, 0, 0, 0, 0, 0, 0⟩, ⟨2, "B", 1, 0, 0, 0, 0, 0, 0⟩] :
        List Team).length) ∧
    ((∀ (sim_h2h : H2H) (disfavor_id favor_id : Option ℕ) (rr : ℕ → ℚ),
      (determine_playoffs
        [⟨1, "A", 0, 0, 0, 0, 0, 0, 0⟩, ⟨2, "B", 1, 0, 0, 0, 0, 0, 0⟩]
        (fun _ => (0, 0, 0)) sim_h2h 2 disfavor_id favor_id
        rr).1.length = 2) ∧
    sumAppearances
      [⟨1, "A", 0, 0, 0, 0, 0, 0, 0⟩, ⟨2, "B", 1, 0, 0, 0, 0, 0, 0⟩]
      (simulate_season
        [⟨1, "A", 0, 0, 0, 0, 0, 0, 0⟩, ⟨2, "B", 1, 0, 0, 0, 0, 0, 0⟩]
        [] (fun _ => (0, 0, 0)) 1 2 (fun _ _ => true) (fun _ _ => 0)) =
      1 * 2) :=
  ⟨⟨by decide, by decide, by decide⟩,
   c1_playoff_appearances
     [⟨1, "A", 0, 0, 0, 0, 0, 0, 0⟩, ⟨2, "B", 1, 0, 0, 0, 0, 0, 0⟩]
     [] (fun _ => (0, 0, 0)) 1 2 (fun _ _ => true) (fun _ _ => 0)
     (by decide) (by decide) (by decide)⟩
